import Mathlib

/-!
# A shallow embedding of the `event-emitter-adv` EventEmitter core

This file models the TypeScript `EventEmitter` class (the repository's main
source file, `src/eventEmitter.ts`) as pure Lean functions over an explicit
state, and proves properties of the registry and its dispatch engine.

Modelling conventions:
* JavaScript function values are modelled by `Fn`: `id` is the reference
  identity used by `===`, `src` encodes the source text returned by
  `Function.prototype.toString` for an ordinary function, and `isBound`
  marks the result of `Function.prototype.bind` (whose `toString` is the
  uniform native-code string, never equal to any user function's source).
  `bind` allocates a fresh identity; the emitter state carries the
  allocator counter `nextId`.
* Arbitrary JavaScript values (a callback argument may fail the
  `typeof x === "function"` check) are modelled by `JSValue`.
* Receiver contexts are object references or `null`, modelled by
  `Option Nat`; an object is truthy, `null` is falsy.
* The `Map<string, CallbackData[]>` is an insertion-ordered association
  list; `Map.set` overwrites in place or appends a new key at the tail.
* The console sink is modelled by the list of `LogEntry` values an
  operation produces; each constructor corresponds to one template
  literal in the source.
* Whether a handler throws when invoked is an exogenous `Behavior`
  (from the function identity and the argument list); `emit` records the
  sequence of invocations it performs as a trace.
-/

deriving instance DecidableEq for Except

namespace EvtEmitter

/-- An argument value passed through `emit`. -/
inductive Arg where
  | str (s : String)
  | nat (n : Nat)
deriving DecidableEq

/-- A JavaScript function value: reference identity, source text code, and
whether it is the result of `bind` (which stringifies as native code). -/
structure Fn where
  id : Nat
  src : Nat
  isBound : Bool
deriving DecidableEq

/-- An arbitrary JavaScript value: a function, or a non-callable value
(identified by a tag for reference equality). -/
inductive JSValue where
  | fn (f : Fn)
  | other (tag : Nat)
deriving DecidableEq

/-- Reference equality (`===`) on modelled JavaScript values. -/
def jsSameValue : JSValue → JSValue → Bool
  | .fn f, .fn g => f.id == g.id
  | .other a, .other b => a == b
  | _, _ => false

/-- The result of `Function.prototype.toString`: `some src` for an ordinary
function's source text, `none` for the uniform native-code string produced
for every bound function (that string is not valid function source, so it
never equals an ordinary function's source). -/
def fnToString (f : Fn) : Option Nat :=
  if f.isBound then none else some f.src

/-- One registered listener record (`CallbackData` in the source): the stored
callback (already bound if a context was supplied), its weight, its repeat
`count` (`MANY = 0`, `ONCE = 1`, `DONE = 2`), and the registration context. -/
structure CallbackData where
  callback : Fn
  weight : Int
  count : Int
  context : Option Nat
deriving DecidableEq

/-- A console message produced by the emitter.  Each constructor stands for
one template literal of the source:
* `warnMaxListeners m e` : `Max listeners (m) for event "e" is reached!`
* `warnDuplicate e` : `Event "e" already has the specified callback.`
* `errorCallback e` : `Error in event "e" callback:`
* `errorOnAny` : `Error in onAny listener:` (carries no event name)
* `errorAsyncCallback e` : `Error in async event "e" callback:`
* `errorAsyncOnAny` : `Error in async onAny listener:` (no event name) -/
inductive LogEntry where
  | warnMaxListeners (maxListeners : Int) (event : String)
  | warnDuplicate (event : String)
  | errorCallback (event : String)
  | errorOnAny
  | errorAsyncCallback (event : String)
  | errorAsyncOnAny
deriving DecidableEq

/-- The event name a log entry reports, when its message interpolates one. -/
def logEventOf : LogEntry → Option String
  | .warnMaxListeners _ e => some e
  | .warnDuplicate e => some e
  | .errorCallback e => some e
  | .errorOnAny => none
  | .errorAsyncCallback e => some e
  | .errorAsyncOnAny => none

/-- The internal state of one emitter (`InternalState` in the source), plus
the identity allocator `nextId` used to model `bind` producing a fresh
function object. -/
structure EmitterState where
  events : List (String × List CallbackData)
  anyCallbacks : List JSValue
  maxListeners : Option Int
  nextId : Nat
deriving DecidableEq

/-- A fresh emitter (the constructor): empty table, empty wildcard list. -/
def mkEmitter (maxListeners : Option Int) (nextId : Nat) : EmitterState :=
  { events := [], anyCallbacks := [], maxListeners := maxListeners,
    nextId := nextId }

/-- Exogenous behaviour of handlers: whether the function with the given
identity throws when invoked with the given arguments. -/
def Behavior : Type := Nat → List Arg → Bool

/-- One recorded handler invocation: which function ran, with which
arguments. -/
structure Invocation where
  fnId : Nat
  args : List Arg
deriving DecidableEq

/-! ## The insertion-ordered string map (`Map<string, ...>`) -/

/-- `Map.prototype.has`. -/
def mapHas {α : Type} (m : List (String × α)) (k : String) : Bool :=
  m.any (fun p => p.1 == k)

/-- `Map.prototype.get` (`none` for a missing key). -/
def mapGet {α : Type} (m : List (String × α)) (k : String) : Option α :=
  (m.find? (fun p => p.1 == k)).map Prod.snd

/-- `Map.prototype.set`: overwrite an existing key in place, else append the
new key at the tail (JS maps preserve insertion order). -/
def mapSet {α : Type} : List (String × α) → String → α → List (String × α)
  | [], k, v => [(k, v)]
  | p :: rest, k, v =>
      if p.1 == k then (k, v) :: rest else p :: mapSet rest k v

/-- `Map.prototype.delete`. -/
def mapDelete {α : Type} (m : List (String × α)) (k : String) :
    List (String × α) :=
  m.filter (fun p => p.1 != k)

/-! ## String trimming (`String.prototype.trim`) -/

/-- The characters removed by `String.prototype.trim`: ECMAScript
WhiteSpace and LineTerminator code points. -/
def isJsWhitespace (c : Char) : Bool :=
  let n := c.toNat
  n == 0x9 || n == 0xA || n == 0xB || n == 0xC || n == 0xD || n == 0x20 ||
  n == 0xA0 || n == 0x1680 || (0x2000 ≤ n && n ≤ 0x200A) ||
  n == 0x2028 || n == 0x2029 || n == 0x202F || n == 0x205F ||
  n == 0x3000 || n == 0xFEFF
/-- `event.trim()`. -/
def jsTrim (s : String) : String :=
  String.mk
    (((s.toList.dropWhile isJsWhitespace).reverse.dropWhile
        isJsWhitespace).reverse)

/-! ## Private helpers of the class -/

/-- `listenersNumber(event)`: the length of the event's list, `0` when the
event is absent. -/
def listenersNumber (s : EmitterState) (event : String) : Nat :=
  match mapGet s.events event with
  | some cbs => cbs.length
  | none => 0

/-- `_achieveMaxListener(event)`: a maximum is configured and the current
listener count has reached it. -/
def achieveMaxListener (s : EmitterState) (event : String) : Bool :=
  match s.maxListeners with
  | some m => m ≤ (listenersNumber s event : Int)
  | none => false

/-- `_callbackExists(event, callback, context)`: some stored record has the
identical callback, or (with a truthy context equal to the stored one) the
same `toString` rendering. -/
def callbackExists (s : EmitterState) (event : String) (callback : Fn)
    (context : Option Nat) : Bool :=
  match mapGet s.events event with
  | none => false
  | some cbs =>
      cbs.any (fun cb =>
        cb.callback.id == callback.id ||
        (context.isSome && cb.context == context &&
          fnToString cb.callback == fnToString callback))

/-- `callback.bind(context)`: a fresh function identity that renders as
native code; the allocator counter advances. -/
def bindFn (s : EmitterState) (f : Fn) : Fn × EmitterState :=
  (⟨s.nextId, f.src, true⟩, { s with nextId := s.nextId + 1 })

/-- The insertion step of `on`: `findIndex(cb => cb.weight < weight)` and
`splice`; the new record goes immediately before the first record of
strictly lower weight, at the tail if none is lower. -/
def insertByWeight : List CallbackData → CallbackData → List CallbackData
  | [], cd => [cd]
  | c :: rest, cd =>
      if c.weight < cd.weight then cd :: c :: rest
      else c :: insertByWeight rest cd

/-! ## Public operations -/

/-- The `TypeError`s thrown by `on`. -/
inductive EmitterError where
  | invalidEventName
  | notAFunction
deriving DecidableEq

/-- `on(event, callback, context, weight, count)`.  Throws on an
empty-after-trim event name or a non-callable callback; warns and returns
unchanged at the listener cap or on a detected duplicate; otherwise binds
the callback to a truthy context and inserts the record by weight. -/
def on' (s : EmitterState) (event : String) (callback : JSValue)
    (context : Option Nat) (weight : Int) (count : Int) :
    Except EmitterError (EmitterState × List LogEntry) :=
  if jsTrim event == "" then .error .invalidEventName
  else
    match callback with
    | .other _ => .error .notAFunction
    | .fn f =>
      if mapHas s.events event && achieveMaxListener s event then
        .ok (s, [.warnMaxListeners (s.maxListeners.getD 0) event])
      else if callbackExists s event f context then
        .ok (s, [.warnDuplicate event])
      else
        let bs := if context.isSome then bindFn s f else (f, s)
        let cd : CallbackData :=
          { callback := bs.1, weight := weight, count := count,
            context := context }
        let cbs := (mapGet bs.2.events event).getD []
        .ok ({ bs.2 with
                 events := mapSet bs.2.events event (insertByWeight cbs cd) },
             [])

/-- `once(event, callback, context, weight)` = `on` with `count = ONCE`. -/
def once (s : EmitterState) (event : String) (callback : JSValue)
    (context : Option Nat) (weight : Int) :
    Except EmitterError (EmitterState × List LogEntry) :=
  on' s event callback context weight 1

/-- The per-record match test of `off`.  In the source the last disjunct
compares the stored callback against `callback.bind(context)`, an object
freshly allocated during the traversal; it is modelled by comparison with
the allocator's next identity, which equals no callback stored in a
well-formed state. -/
def offMatches (s : EmitterState) (cb : CallbackData) (callback : Fn)
    (context : Option Nat) : Bool :=
  cb.callback.id == callback.id ||
  (context.isSome && cb.context == context &&
    (cb.callback.id == callback.id || cb.callback.id == s.nextId))

/-- `off(event, callback, context)`: no-op for an unknown event; with a null
callback delete the whole entry; otherwise splice out every matching record
and delete the key if the list becomes empty. -/
def off (s : EmitterState) (event : String) (callback : Option Fn)
    (context : Option Nat) : EmitterState :=
  if !(mapHas s.events event) then s
  else
    match callback with
    | none => { s with events := mapDelete s.events event }
    | some f =>
      let cbs := (mapGet s.events event).getD []
      let kept := cbs.filter (fun cb => !(offMatches s cb f context))
      if kept.isEmpty then { s with events := mapDelete s.events event }
      else { s with events := mapSet s.events event kept }

/-- Invoking a JavaScript value: a function runs (it may throw, as the
behaviour dictates); calling a non-function throws a `TypeError` without
any invocation happening.  Returns the recorded invocations and whether the
call threw. -/
def invokeValue (b : Behavior) (v : JSValue) (args : List Arg) :
    List Invocation × Bool :=
  match v with
  | .fn f => ([⟨f.id, args⟩], b f.id args)
  | .other _ => ([], true)

/-- The outcome of dispatching to one record during `emit`. -/
structure RecordResult where
  record : CallbackData
  removed : Bool
  log : List LogEntry
  trace : List Invocation
deriving DecidableEq

/-- The `count` update performed after a (non-`DONE`) invocation: a positive
count is decremented and, on reaching zero, flipped to `DONE` and flagged
for removal. -/
def stepCount (c : Int) : Int × Bool :=
  if c > 0 then
    if c - 1 == 0 then (2, true) else (c - 1, false)
  else (c, false)

/-- Dispatch of `emit` to one snapshot record: skip a `DONE` record; invoke
the callback (an exception is caught and logged with the event name), then
apply the count update. -/
def processRecord (b : Behavior) (event : String) (args : List Arg)
    (cb : CallbackData) : RecordResult :=
  if cb.count == 2 then
    { record := cb, removed := false, log := [], trace := [] }
  else
    { record := { cb with count := (stepCount cb.count).1 },
      removed := (stepCount cb.count).2,
      log := if b cb.callback.id args then [.errorCallback event] else [],
      trace := [⟨cb.callback.id, args⟩] }

/-- Dispatch of `emitAsync` to one snapshot record: identical to
`processRecord` except for the error message. -/
def processRecordAsync (b : Behavior) (event : String) (args : List Arg)
    (cb : CallbackData) : RecordResult :=
  if cb.count == 2 then
    { record := cb, removed := false, log := [], trace := [] }
  else
    { record := { cb with count := (stepCount cb.count).1 },
      removed := (stepCount cb.count).2,
      log := if b cb.callback.id args then [.errorAsyncCallback event]
             else [],
      trace := [⟨cb.callback.id, args⟩] }

/-- `emit(event, ...args)`: snapshot the record list, dispatch to each
non-`DONE` record with per-handler error containment, splice out the
records whose count was exhausted (deleting the key if the list empties),
then invoke every wildcard callback with the event name prepended to the
arguments, with the same containment.  Returns the new state, the console
output, and the invocation trace. -/
def emit (b : Behavior) (s : EmitterState) (event : String)
    (args : List Arg) : EmitterState × List LogEntry × List Invocation :=
  let reg :
      EmitterState × List LogEntry × List Invocation :=
    if mapHas s.events event then
      let cbs := (mapGet s.events event).getD []
      let results := cbs.map (processRecord b event args)
      let anyRemoved := results.any (fun r => r.removed)
      let newList :=
        if anyRemoved then
          (results.filter (fun r => !r.removed)).map (fun r => r.record)
        else results.map (fun r => r.record)
      let events' :=
        if anyRemoved && newList.isEmpty then mapDelete s.events event
        else mapSet s.events event newList
      ({ s with events := events' },
       (results.map (fun r => r.log)).flatten,
       (results.map (fun r => r.trace)).flatten)
    else (s, [], [])
  let anyResults :=
    s.anyCallbacks.map (fun v => invokeValue b v (Arg.str event :: args))
  let anyLog :=
    (anyResults.map (fun r =>
      if r.2 then [LogEntry.errorOnAny] else [])).flatten
  let anyTr := (anyResults.map (fun r => r.1)).flatten
  (reg.1, reg.2.1 ++ anyLog, reg.2.2 ++ anyTr)

/-- `emitAsync(event, ...args)`: the same selection, exhaustion and removal
logic as `emit`, awaiting each handler in turn; only the error messages
differ. -/
def emitAsync (b : Behavior) (s : EmitterState) (event : String)
    (args : List Arg) : EmitterState × List LogEntry × List Invocation :=
  let reg :
      EmitterState × List LogEntry × List Invocation :=
    if mapHas s.events event then
      let cbs := (mapGet s.events event).getD []
      let results := cbs.map (processRecordAsync b event args)
      let anyRemoved := results.any (fun r => r.removed)
      let newList :=
        if anyRemoved then
          (results.filter (fun r => !r.removed)).map (fun r => r.record)
        else results.map (fun r => r.record)
      let events' :=
        if anyRemoved && newList.isEmpty then mapDelete s.events event
        else mapSet s.events event newList
      ({ s with events := events' },
       (results.map (fun r => r.log)).flatten,
       (results.map (fun r => r.trace)).flatten)
    else (s, [], [])
  let anyResults :=
    s.anyCallbacks.map (fun v => invokeValue b v (Arg.str event :: args))
  let anyLog :=
    (anyResults.map (fun r =>
      if r.2 then [LogEntry.errorAsyncOnAny] else [])).flatten
  let anyTr := (anyResults.map (fun r => r.1)).flatten
  (reg.1, reg.2.1 ++ anyLog, reg.2.2 ++ anyTr)

/-- `onAny(callback)`: push onto the wildcard list, unconditionally (no
callability check, no duplicate check). -/
def onAny (s : EmitterState) (callback : JSValue) : EmitterState :=
  { s with anyCallbacks := s.anyCallbacks ++ [callback] }

/-- `offAny(callback)`: filter the wildcard list by reference identity. -/
def offAny (s : EmitterState) (callback : JSValue) : EmitterState :=
  { s with
      anyCallbacks :=
        s.anyCallbacks.filter (fun v => !(jsSameValue v callback)) }

/-- `clear()`: drop every event entry and every wildcard callback. -/
def clear (s : EmitterState) : EmitterState :=
  { s with events := [], anyCallbacks := [] }

/-- `eventNames()`: the keys of the event table, in insertion order. -/
def eventNames (s : EmitterState) : List String :=
  s.events.map Prod.fst

/-- `listeners(event)`: the stored (bound) callbacks for an event, in
dispatch order; empty for an unknown event. -/
def listeners (s : EmitterState) (event : String) : List Fn :=
  match mapGet s.events event with
  | some cbs => cbs.map (fun cb => cb.callback)
  | none => []

/-- The number of invocations of a given function identity in a trace. -/
def invCount (tr : List Invocation) (i : Nat) : Nat :=
  (tr.filter (fun inv => inv.fnId == i)).length

/-- Iterated emission: the final state and the concatenated trace of `n`
successive `emit` calls with the same event and arguments. -/
def iterEmit (b : Behavior) (event : String) (args : List Arg) :
    Nat → EmitterState → EmitterState × List Invocation
  | 0, s => (s, [])
  | n + 1, s =>
      let r := emit b s event args
      let rest := iterEmit b event args n r.1
      (rest.1, r.2.2 ++ rest.2)

end EvtEmitter

namespace EvtEmitter

/-! ## Derived dispatch functions

These re-express the per-record dispatch of `emit`/`emitAsync`
declaratively; the characterisation lemmas below prove that the imperative
translation computes them. -/

/-- The record after one dispatch: a `DONE` record is untouched; otherwise
the count update of the source applies. -/
def stepRecord (cb : CallbackData) : CallbackData :=
  if cb.count == 2 then cb else { cb with count := (stepCount cb.count).1 }

/-- Whether one dispatch schedules the record for removal. -/
def removesRecord (cb : CallbackData) : Bool :=
  if cb.count == 2 then false else (stepCount cb.count).2

/-- The record list an emission leaves behind (before the empty-list key
deletion): exhausted records are spliced out, the rest keep their updated
counts. -/
def dispatchKept (cbs : List CallbackData) : List CallbackData :=
  (cbs.filter (fun cb => !(removesRecord cb))).map stepRecord

/-- The regular-listener invocations of one emission: every non-`DONE`
record, in list order. -/
def dispatchTrace (args : List Arg) (cbs : List CallbackData) :
    List Invocation :=
  cbs.filterMap (fun cb =>
    if cb.count == 2 then none else some ⟨cb.callback.id, args⟩)

/-- The wildcard invocations of one emission: every function value in the
wildcard list, in insertion order, with the event name prepended. -/
def wildTrace (event : String) (args : List Arg) (vs : List JSValue) :
    List Invocation :=
  vs.filterMap (fun v =>
    match v with
    | .fn f => some ⟨f.id, Arg.str event :: args⟩
    | .other _ => none)

/-! ## List and map lemmas -/

theorem flatten_map_eq_filterMap {α β : Type} (f : α → List β)
    (g : α → Option β) (h : ∀ a, f a = (g a).toList) (l : List α) :
    (l.map f).flatten = l.filterMap g := by
  induction l with
  | nil => rfl
  | cons a l ih =>
      simp only [List.map_cons, List.flatten_cons, List.filterMap_cons, h a]
      cases g a <;> simp [ih]

theorem mapGet_cons {α : Type} (p : String × α) (rest : List (String × α))
    (k : String) :
    mapGet (p :: rest) k = if p.1 = k then some p.2 else mapGet rest k := by
  by_cases h : p.1 = k
  · simp [mapGet, List.find?_cons_of_pos, h]
  · simp [mapGet, List.find?_cons_of_neg, h]

theorem mapHas_cons {α : Type} (p : String × α) (rest : List (String × α))
    (k : String) :
    mapHas (p :: rest) k = (p.1 == k || mapHas rest k) := by
  simp [mapHas]

theorem mapSet_cons {α : Type} (p : String × α) (rest : List (String × α))
    (k : String) (v : α) :
    mapSet (p :: rest) k v =
      if p.1 = k then (k, v) :: rest else p :: mapSet rest k v := by
  simp [mapSet]

theorem mapDelete_cons {α : Type} (p : String × α)
    (rest : List (String × α)) (k : String) :
    mapDelete (p :: rest) k =
      if p.1 = k then mapDelete rest k else p :: mapDelete rest k := by
  by_cases h : p.1 = k <;> simp [mapDelete, List.filter_cons, h]

theorem mapGet_mapSet_self {α : Type} (m : List (String × α)) (k : String)
    (v : α) : mapGet (mapSet m k v) k = some v := by
  induction m with
  | nil => simp [mapSet, mapGet]
  | cons p rest ih =>
      rw [mapSet_cons]
      by_cases h : p.1 = k
      · simp [h, mapGet_cons]
      · simp [h, mapGet_cons, ih]

theorem mapGet_mapSet_ne {α : Type} (m : List (String × α)) (k k' : String)
    (v : α) (h : k' ≠ k) : mapGet (mapSet m k v) k' = mapGet m k' := by
  induction m with
  | nil => simp [mapSet, mapGet_cons, Ne.symm h, mapGet]
  | cons p rest ih =>
      rw [mapSet_cons]
      by_cases hp : p.1 = k
      · simp [hp, mapGet_cons, Ne.symm h, hp.symm ▸ (Ne.symm h)]
      · by_cases hp' : p.1 = k'
        · simp [mapGet_cons, hp, hp', h]
        · simp [mapGet_cons, hp, hp', ih]

theorem mapGet_mapDelete_self {α : Type} (m : List (String × α))
    (k : String) : mapGet (mapDelete m k) k = none := by
  induction m with
  | nil => rfl
  | cons p rest ih =>
      rw [mapDelete_cons]
      by_cases hp : p.1 = k
      · simp [hp, ih]
      · simp [mapGet_cons, hp, ih]

theorem mapGet_mapDelete_ne {α : Type} (m : List (String × α))
    (k k' : String) (h : k' ≠ k) :
    mapGet (mapDelete m k) k' = mapGet m k' := by
  induction m with
  | nil => rfl
  | cons p rest ih =>
      rw [mapDelete_cons]
      by_cases hp : p.1 = k
      · rw [if_pos hp, ih, mapGet_cons]
        have hne : ¬p.1 = k' := by rw [hp]; exact Ne.symm h
        rw [if_neg hne]
      · rw [if_neg hp, mapGet_cons, mapGet_cons, ih]

theorem mapHas_eq_isSome {α : Type} (m : List (String × α)) (k : String) :
    mapHas m k = (mapGet m k).isSome := by
  induction m with
  | nil => rfl
  | cons p rest ih =>
      rw [mapHas_cons, mapGet_cons]
      by_cases hp : p.1 = k
      · simp [hp]
      · simp [hp, ih]

theorem mapGet_eq_none_of_not_has {α : Type} (m : List (String × α))
    (k : String) (h : mapHas m k = false) : mapGet m k = none := by
  have h2 := mapHas_eq_isSome m k
  rw [h] at h2
  exact Option.not_isSome_iff_eq_none.mp (by simp [← h2])

theorem mapHas_of_get_some {α : Type} (m : List (String × α)) (k : String)
    (v : α) (h : mapGet m k = some v) : mapHas m k = true := by
  rw [mapHas_eq_isSome, h]; rfl

theorem mapSet_self {α : Type} (m : List (String × α)) (k : String) (v : α)
    (h : mapGet m k = some v) : mapSet m k v = m := by
  induction m with
  | nil => simp [mapGet] at h
  | cons p rest ih =>
      rw [mapSet_cons]
      by_cases hp : p.1 = k
      · rw [mapGet_cons, if_pos hp] at h
        have hv : p.2 = v := by injection h
        have : (k, v) = p := by
          cases p
          simp_all
        simp [hp, this]
      · rw [mapGet_cons, if_neg hp] at h
        simp [hp, ih h]

theorem mem_of_mapGet_some {α : Type} (m : List (String × α)) (k : String)
    (v : α) (h : mapGet m k = some v) : (k, v) ∈ m := by
  induction m with
  | nil => simp [mapGet] at h
  | cons p rest ih =>
      rw [mapGet_cons] at h
      by_cases hp : p.1 = k
      · rw [if_pos hp] at h
        have hv : p.2 = v := by injection h
        have : (k, v) = p := by
          cases p
          simp_all
        rw [this]
        exact List.mem_cons_self p rest
      · rw [if_neg hp] at h
        exact List.mem_cons_of_mem p (ih h)

theorem mem_mapSet {α : Type} (m : List (String × α)) (k : String) (v : α)
    (p : String × α) (h : p ∈ mapSet m k v) : p ∈ m ∨ p = (k, v) := by
  induction m with
  | nil => simpa [mapSet] using h
  | cons q rest ih =>
      rw [mapSet_cons] at h
      by_cases hq : q.1 = k
      · rw [if_pos hq] at h
        rcases List.mem_cons.mp h with h1 | h1
        · right; exact h1
        · left; exact List.mem_cons_of_mem q h1
      · rw [if_neg hq] at h
        rcases List.mem_cons.mp h with h1 | h1
        · left; rw [h1]; exact List.mem_cons_self q rest
        · rcases ih h1 with h2 | h2
          · left; exact List.mem_cons_of_mem q h2
          · right; exact h2

theorem mem_mapDelete {α : Type} (m : List (String × α)) (k : String)
    (p : String × α) (h : p ∈ mapDelete m k) : p ∈ m :=
  List.mem_of_mem_filter h

/-! ## Characterisation of dispatch -/

theorem processRecord_record (b : Behavior) (event : String)
    (args : List Arg) (cb : CallbackData) :
    (processRecord b event args cb).record = stepRecord cb := by
  unfold processRecord stepRecord
  split <;> rfl

theorem processRecord_removed (b : Behavior) (event : String)
    (args : List Arg) (cb : CallbackData) :
    (processRecord b event args cb).removed = removesRecord cb := by
  unfold processRecord removesRecord
  split <;> rfl

theorem processRecord_trace (b : Behavior) (event : String)
    (args : List Arg) (cb : CallbackData) :
    (processRecord b event args cb).trace =
      (if cb.count == 2 then none
       else some (⟨cb.callback.id, args⟩ : Invocation)).toList := by
  unfold processRecord
  split <;> rfl

theorem processRecord_log (b : Behavior) (event : String) (args : List Arg)
    (cb : CallbackData) :
    (processRecord b event args cb).log =
      (if cb.count == 2 then none
       else if b cb.callback.id args then some (LogEntry.errorCallback event)
       else none).toList := by
  unfold processRecord
  split
  · rfl
  · by_cases hb : b cb.callback.id args <;> simp [hb]

theorem processRecordAsync_record (b : Behavior) (event : String)
    (args : List Arg) (cb : CallbackData) :
    (processRecordAsync b event args cb).record = stepRecord cb := by
  unfold processRecordAsync stepRecord
  split <;> rfl

theorem processRecordAsync_removed (b : Behavior) (event : String)
    (args : List Arg) (cb : CallbackData) :
    (processRecordAsync b event args cb).removed = removesRecord cb := by
  unfold processRecordAsync removesRecord
  split <;> rfl

theorem processRecordAsync_trace (b : Behavior) (event : String)
    (args : List Arg) (cb : CallbackData) :
    (processRecordAsync b event args cb).trace =
      (processRecord b event args cb).trace := by
  unfold processRecordAsync processRecord
  split <;> rfl

theorem stepRecord_weight (cb : CallbackData) :
    (stepRecord cb).weight = cb.weight := by
  unfold stepRecord
  split <;> rfl

theorem stepRecord_callback (cb : CallbackData) :
    (stepRecord cb).callback = cb.callback := by
  unfold stepRecord
  split <;> rfl

theorem map_record_processRecord (b : Behavior) (event : String)
    (args : List Arg) (cbs : List CallbackData) :
    (cbs.map (processRecord b event args)).map (fun r => r.record) =
      cbs.map stepRecord := by
  induction cbs with
  | nil => rfl
  | cons cb rest ih => simp [ih, processRecord_record]

theorem any_removed_processRecord (b : Behavior) (event : String)
    (args : List Arg) (cbs : List CallbackData) :
    (cbs.map (processRecord b event args)).any (fun r => r.removed) =
      cbs.any removesRecord := by
  induction cbs with
  | nil => rfl
  | cons cb rest ih => simp [ih, processRecord_removed]

theorem kept_processRecord (b : Behavior) (event : String) (args : List Arg)
    (cbs : List CallbackData) :
    ((cbs.map (processRecord b event args)).filter
        (fun r => !r.removed)).map (fun r => r.record) =
      dispatchKept cbs := by
  induction cbs with
  | nil => rfl
  | cons cb rest ih =>
      simp only [List.map_cons, List.filter_cons, processRecord_removed]
      by_cases h : removesRecord cb
      · simpa [dispatchKept, List.filter_cons, h] using ih
      · simp only [h, Bool.not_false, if_true, List.map_cons,
          processRecord_record]
        rw [ih]
        simp [dispatchKept, List.filter_cons, h]

theorem trace_processRecord (b : Behavior) (event : String) (args : List Arg)
    (cbs : List CallbackData) :
    ((cbs.map (processRecord b event args)).map (fun r => r.trace)).flatten =
      dispatchTrace args cbs := by
  induction cbs with
  | nil => rfl
  | cons cb rest ih =>
      simp only [List.map_cons, List.flatten_cons, processRecord_trace,
        dispatchTrace, List.filterMap_cons]
      by_cases h : cb.count == 2
      · simpa [h, dispatchTrace] using ih
      · simp only [h, if_false, Bool.false_eq_true, Option.toList_some]
        rw [ih]
        simp [dispatchTrace, h]

theorem wild_trace_flatten (b : Behavior) (event : String) (args : List Arg)
    (vs : List JSValue) :
    ((vs.map (fun v => invokeValue b v (Arg.str event :: args))).map
        (fun r => r.1)).flatten = wildTrace event args vs := by
  induction vs with
  | nil => rfl
  | cons v rest ih =>
      cases v <;> simpa [invokeValue, wildTrace, List.filterMap_cons] using ih

/-- The state `emit` leaves behind, expressed declaratively: only the
emitted event's entry changes; exhausted records are spliced out and the
key is deleted exactly when a removal empties the list. -/
theorem emit_state (b : Behavior) (s : EmitterState) (event : String)
    (args : List Arg) :
    (emit b s event args).1 =
      { s with events :=
          if mapHas s.events event then
            let cbs := (mapGet s.events event).getD []
            if cbs.any removesRecord && (dispatchKept cbs).isEmpty then
              mapDelete s.events event
            else mapSet s.events event (dispatchKept cbs)
          else s.events } := by
  unfold emit
  by_cases h : mapHas s.events event
  · simp only [h, if_true]
    set cbs := (mapGet s.events event).getD [] with hcbs
    by_cases hrem : cbs.any removesRecord
    · simp only [any_removed_processRecord, hrem, if_true, Bool.true_and,
        kept_processRecord]
    · simp only [any_removed_processRecord, hrem, Bool.false_and, if_false,
        Bool.false_eq_true, map_record_processRecord]
      have hall : ∀ cb ∈ cbs, removesRecord cb = false := by
        intro cb hcb
        by_contra hc
        exact absurd (List.any_eq_true.mpr ⟨cb, hcb, by simpa using hc⟩)
          (by simp [hrem])
      have hfill : cbs.filter (fun cb => !(removesRecord cb)) = cbs :=
        List.filter_eq_self.mpr (fun cb hcb => by simp [hall cb hcb])
      unfold dispatchKept
      rw [hfill]
  · simp [h]

/-- The invocation trace of `emit`, expressed declaratively: every
non-`DONE` record in order, then every wildcard function in insertion
order.  The trace does not depend on which handlers throw. -/
theorem emit_trace (b : Behavior) (s : EmitterState) (event : String)
    (args : List Arg) :
    (emit b s event args).2.2 =
      (if mapHas s.events event then
         dispatchTrace args ((mapGet s.events event).getD [])
       else []) ++ wildTrace event args s.anyCallbacks := by
  unfold emit
  by_cases h : mapHas s.events event
  · simp only [h, if_true]
    rw [trace_processRecord, wild_trace_flatten]
  · simp only [h, if_false, Bool.false_eq_true]
    rw [wild_trace_flatten]

theorem map_record_processRecordAsync (b : Behavior) (event : String)
    (args : List Arg) (cbs : List CallbackData) :
    (cbs.map (processRecordAsync b event args)).map (fun r => r.record) =
      cbs.map stepRecord := by
  induction cbs with
  | nil => rfl
  | cons cb rest ih => simp [ih, processRecordAsync_record]

theorem any_removed_processRecordAsync (b : Behavior) (event : String)
    (args : List Arg) (cbs : List CallbackData) :
    (cbs.map (processRecordAsync b event args)).any (fun r => r.removed) =
      cbs.any removesRecord := by
  induction cbs with
  | nil => rfl
  | cons cb rest ih => simp [ih, processRecordAsync_removed]

theorem kept_processRecordAsync (b : Behavior) (event : String)
    (args : List Arg) (cbs : List CallbackData) :
    ((cbs.map (processRecordAsync b event args)).filter
        (fun r => !r.removed)).map (fun r => r.record) =
      dispatchKept cbs := by
  induction cbs with
  | nil => rfl
  | cons cb rest ih =>
      simp only [List.map_cons, List.filter_cons, processRecordAsync_removed]
      by_cases h : removesRecord cb
      · simpa [dispatchKept, List.filter_cons, h] using ih
      · simp only [h, Bool.not_false, if_true, List.map_cons,
          processRecordAsync_record]
        rw [ih]
        simp [dispatchKept, List.filter_cons, h]

theorem trace_processRecordAsync (b : Behavior) (event : String)
    (args : List Arg) (cbs : List CallbackData) :
    ((cbs.map (processRecordAsync b event args)).map
        (fun r => r.trace)).flatten = dispatchTrace args cbs := by
  induction cbs with
  | nil => rfl
  | cons cb rest ih =>
      simp only [List.map_cons, List.flatten_cons, processRecordAsync_trace,
        processRecord_trace, dispatchTrace, List.filterMap_cons]
      by_cases h : cb.count == 2
      · simpa [h, dispatchTrace] using ih
      · simp only [h, if_false, Bool.false_eq_true, Option.toList_some]
        rw [ih]
        simp [dispatchTrace, h]

/-- The state `emitAsync` leaves behind, expressed declaratively; the same
expression as for `emit`. -/
theorem emitAsync_state (b : Behavior) (s : EmitterState) (event : String)
    (args : List Arg) :
    (emitAsync b s event args).1 =
      { s with events :=
          if mapHas s.events event then
            let cbs := (mapGet s.events event).getD []
            if cbs.any removesRecord && (dispatchKept cbs).isEmpty then
              mapDelete s.events event
            else mapSet s.events event (dispatchKept cbs)
          else s.events } := by
  unfold emitAsync
  by_cases h : mapHas s.events event
  · simp only [h, if_true]
    set cbs := (mapGet s.events event).getD [] with hcbs
    by_cases hrem : cbs.any removesRecord
    · simp only [any_removed_processRecordAsync, hrem, if_true,
        Bool.true_and, kept_processRecordAsync]
    · simp only [any_removed_processRecordAsync, hrem, Bool.false_and,
        if_false, Bool.false_eq_true, map_record_processRecordAsync]
      have hall : ∀ cb ∈ cbs, removesRecord cb = false := by
        intro cb hcb
        by_contra hc
        exact absurd (List.any_eq_true.mpr ⟨cb, hcb, by simpa using hc⟩)
          (by simp [hrem])
      have hfill : cbs.filter (fun cb => !(removesRecord cb)) = cbs :=
        List.filter_eq_self.mpr (fun cb hcb => by simp [hall cb hcb])
      unfold dispatchKept
      rw [hfill]
  · simp [h]

/-- The invocation trace of `emitAsync`: the same expression as for
`emit`. -/
theorem emitAsync_trace (b : Behavior) (s : EmitterState) (event : String)
    (args : List Arg) :
    (emitAsync b s event args).2.2 =
      (if mapHas s.events event then
         dispatchTrace args ((mapGet s.events event).getD [])
       else []) ++ wildTrace event args s.anyCallbacks := by
  unfold emitAsync
  by_cases h : mapHas s.events event
  · simp only [h, if_true]
    rw [trace_processRecordAsync, wild_trace_flatten]
  · simp only [h, if_false, Bool.false_eq_true]
    rw [wild_trace_flatten]

/-! ## Log membership -/

theorem processRecord_log_mem (b : Behavior) (event : String)
    (args : List Arg) (cb : CallbackData) (l : LogEntry)
    (h : l ∈ (processRecord b event args cb).log) :
    l = .errorCallback event := by
  rw [processRecord_log] at h
  by_cases h2 : cb.count == 2
  · simp [h2] at h
  · by_cases hb : b cb.callback.id args
    · simp [h2, hb] at h
      exact h
    · simp [h2, hb] at h

theorem processRecordAsync_log_mem (b : Behavior) (event : String)
    (args : List Arg) (cb : CallbackData) (l : LogEntry)
    (h : l ∈ (processRecordAsync b event args cb).log) :
    l = .errorAsyncCallback event := by
  unfold processRecordAsync at h
  by_cases h2 : cb.count == 2
  · simp [h2] at h
  · by_cases hb : b cb.callback.id args
    · simp [h2, hb] at h
      exact h
    · simp [h2, hb] at h

theorem emit_log_mem (b : Behavior) (s : EmitterState) (event : String)
    (args : List Arg) (l : LogEntry)
    (h : l ∈ (emit b s event args).2.1) :
    l = .errorCallback event ∨ l = .errorOnAny := by
  unfold emit at h
  simp only [List.mem_append] at h
  rcases h with h | h
  · by_cases hh : mapHas s.events event
    · simp only [hh, if_true] at h
      rcases List.mem_flatten.mp h with ⟨ls, hls, hl⟩
      rcases List.mem_map.mp hls with ⟨r, hr, rfl⟩
      rcases List.mem_map.mp hr with ⟨cb, _, rfl⟩
      exact Or.inl (processRecord_log_mem b event args cb l hl)
    · simp [hh] at h
  · rcases List.mem_flatten.mp h with ⟨ls, hls, hl⟩
    rcases List.mem_map.mp hls with ⟨r, _, rfl⟩
    right
    by_cases hr : r.2
    · simpa [hr] using hl
    · simp [hr] at hl

theorem emitAsync_log_mem (b : Behavior) (s : EmitterState) (event : String)
    (args : List Arg) (l : LogEntry)
    (h : l ∈ (emitAsync b s event args).2.1) :
    l = .errorAsyncCallback event ∨ l = .errorAsyncOnAny := by
  unfold emitAsync at h
  simp only [List.mem_append] at h
  rcases h with h | h
  · by_cases hh : mapHas s.events event
    · simp only [hh, if_true] at h
      rcases List.mem_flatten.mp h with ⟨ls, hls, hl⟩
      rcases List.mem_map.mp hls with ⟨r, hr, rfl⟩
      rcases List.mem_map.mp hr with ⟨cb, _, rfl⟩
      exact Or.inl (processRecordAsync_log_mem b event args cb l hl)
    · simp [hh] at h
  · rcases List.mem_flatten.mp h with ⟨ls, hls, hl⟩
    rcases List.mem_map.mp hls with ⟨r, _, rfl⟩
    right
    by_cases hr : r.2
    · simpa [hr] using hl
    · simp [hr] at hl

/-! ## Invariants -/

/-- The table invariant: every event entry holds a non-empty record
list. -/
def NEInv (s : EmitterState) : Prop :=
  ∀ p ∈ s.events, p.2 ≠ ([] : List CallbackData)

/-- A record list in non-increasing weight order. -/
def weightSorted (l : List CallbackData) : Prop :=
  l.Pairwise (fun a b => b.weight ≤ a.weight)

/-- The ordering invariant: every event entry is in non-increasing weight
order. -/
def SortedInv (s : EmitterState) : Prop :=
  ∀ p ∈ s.events, weightSorted p.2

theorem NEInv_get (s : EmitterState) (e : String) (cbs : List CallbackData)
    (hinv : NEInv s) (h : mapGet s.events e = some cbs) : cbs ≠ [] :=
  hinv (e, cbs) (mem_of_mapGet_some s.events e cbs h)

theorem SortedInv_get (s : EmitterState) (e : String)
    (cbs : List CallbackData) (hinv : SortedInv s)
    (h : mapGet s.events e = some cbs) : weightSorted cbs :=
  hinv (e, cbs) (mem_of_mapGet_some s.events e cbs h)

/-! ## Insertion lemmas -/

theorem insertByWeight_ne_nil (l : List CallbackData) (cd : CallbackData) :
    insertByWeight l cd ≠ [] := by
  cases l with
  | nil => simp [insertByWeight]
  | cons c rest =>
      unfold insertByWeight
      split <;> simp

theorem mem_insertByWeight (l : List CallbackData) (cd x : CallbackData)
    (h : x ∈ insertByWeight l cd) : x = cd ∨ x ∈ l := by
  induction l with
  | nil => simpa [insertByWeight] using h
  | cons c rest ih =>
      unfold insertByWeight at h
      by_cases hw : c.weight < cd.weight
      · rw [if_pos hw] at h
        rcases List.mem_cons.mp h with h1 | h1
        · left; exact h1
        · right; exact h1
      · rw [if_neg hw] at h
        rcases List.mem_cons.mp h with h1 | h1
        · right; rw [h1]; exact List.mem_cons_self c rest
        · rcases ih h1 with h2 | h2
          · left; exact h2
          · right; exact List.mem_cons_of_mem c h2

theorem weightSorted_insertByWeight (l : List CallbackData)
    (cd : CallbackData) (h : weightSorted l) :
    weightSorted (insertByWeight l cd) := by
  induction l with
  | nil => simp [insertByWeight, weightSorted]
  | cons c rest ih =>
      unfold weightSorted at h
      rcases List.pairwise_cons.mp h with ⟨hc, hrest⟩
      unfold insertByWeight
      by_cases hw : c.weight < cd.weight
      · rw [if_pos hw]
        unfold weightSorted
        refine List.pairwise_cons.mpr ⟨?_, h⟩
        intro x hx
        rcases List.mem_cons.mp hx with h1 | h1
        · rw [h1]; exact le_of_lt hw
        · exact le_trans (hc x h1) (le_of_lt hw)
      · rw [if_neg hw]
        unfold weightSorted
        refine List.pairwise_cons.mpr ⟨?_, ih hrest⟩
        intro x hx
        rcases mem_insertByWeight rest cd x hx with h1 | h1
        · rw [h1]; exact le_of_not_lt hw
        · exact hc x h1

/-- The position of insertion, stated declaratively: the new record lands
immediately after the maximal prefix of records whose weight is not
strictly lower, that is, immediately before the first record of strictly
lower weight (at the tail when none is lower). -/
theorem insertByWeight_eq_takeWhile (l : List CallbackData)
    (cd : CallbackData) :
    insertByWeight l cd =
      l.takeWhile (fun c => !(c.weight < cd.weight)) ++
        cd :: l.dropWhile (fun c => !(c.weight < cd.weight)) := by
  induction l with
  | nil => rfl
  | cons c rest ih =>
      unfold insertByWeight
      by_cases hw : c.weight < cd.weight
      · rw [if_pos hw]
        simp [List.takeWhile_cons, List.dropWhile_cons, hw]
      · rw [if_neg hw]
        simp only [List.takeWhile_cons, List.dropWhile_cons, hw]
        simp [ih]

/-! ## Reduction lemmas for `on'` -/

theorem bind_step_events (s : EmitterState) (f : Fn) (ctx : Option Nat) :
    ((if ctx.isSome then bindFn s f else (f, s)).2).events = s.events := by
  split <;> rfl

theorem bind_step_anyCallbacks (s : EmitterState) (f : Fn)
    (ctx : Option Nat) :
    ((if ctx.isSome then bindFn s f else (f, s)).2).anyCallbacks =
      s.anyCallbacks := by
  split <;> rfl

theorem on_fresh (s : EmitterState) (e : String) (f : Fn) (w c : Int)
    (hnot : mapHas s.events e = false) (hname : jsTrim e ≠ "") :
    on' s e (.fn f) none w c =
      .ok ({ s with
               events :=
                 mapSet s.events e
                   [{ callback := f, weight := w, count := c,
                      context := none }] },
           []) := by
  have hb : (jsTrim e == "") = false := by simpa using hname
  have hget := mapGet_eq_none_of_not_has s.events e hnot
  unfold on'
  rw [hb]
  simp only [Bool.false_eq_true, if_false, hnot, Bool.false_and]
  have hex : callbackExists s e f none = false := by
    unfold callbackExists
    rw [hget]
  rw [hex]
  simp [hget, insertByWeight]

theorem on_cap (s : EmitterState) (e : String) (f : Fn) (ctx : Option Nat)
    (w c : Int) (hname : jsTrim e ≠ "")
    (hcap : (mapHas s.events e && achieveMaxListener s e) = true) :
    on' s e (.fn f) ctx w c =
      .ok (s, [.warnMaxListeners (s.maxListeners.getD 0) e]) := by
  have hb : (jsTrim e == "") = false := by simpa using hname
  unfold on'
  rw [hb]
  simp [hcap]

theorem on_dup (s : EmitterState) (e : String) (f : Fn) (ctx : Option Nat)
    (w c : Int) (hname : jsTrim e ≠ "")
    (hcap : (mapHas s.events e && achieveMaxListener s e) = false)
    (hex : callbackExists s e f ctx = true) :
    on' s e (.fn f) ctx w c = .ok (s, [.warnDuplicate e]) := by
  have hb : (jsTrim e == "") = false := by simpa using hname
  unfold on'
  rw [hb]
  simp [hcap, hex]

theorem jsTrim_eq_empty (e : String)
    (h : ∀ ch ∈ e.toList, isJsWhitespace ch = true) : jsTrim e = "" := by
  unfold jsTrim
  have h1 : e.toList.dropWhile isJsWhitespace = [] :=
    List.dropWhile_eq_nil_iff.mpr h
  rw [h1]
  rfl

theorem on_add (s : EmitterState) (e : String) (f : Fn) (ctx : Option Nat)
    (w c : Int) (hname : jsTrim e ≠ "")
    (hcap : (mapHas s.events e && achieveMaxListener s e) = false)
    (hex : callbackExists s e f ctx = false) :
    on' s e (.fn f) ctx w c =
      .ok ({ (if ctx.isSome then bindFn s f else (f, s)).2 with
               events := mapSet s.events e
                 (insertByWeight ((mapGet s.events e).getD [])
                   { callback := (if ctx.isSome then bindFn s f
                                  else (f, s)).1,
                     weight := w, count := c, context := ctx }) }, []) := by
  have hb : (jsTrim e == "") = false := by simpa using hname
  unfold on'
  rw [hb]
  simp only [Bool.false_eq_true, if_false, hcap, hex]
  rw [bind_step_events]

/-! ## Invariant preservation -/

theorem NEInv_on (s s' : EmitterState) (e : String) (cb : JSValue)
    (ctx : Option Nat) (w c : Int) (log : List LogEntry) (hinv : NEInv s)
    (hok : on' s e cb ctx w c = .ok (s', log)) : NEInv s' := by
  by_cases hn : (jsTrim e == "") = true
  · simp [on', hn] at hok
  · cases cb with
    | other t => simp [on', hn] at hok
    | fn f =>
      have hname : jsTrim e ≠ "" := by simpa using hn
      by_cases hcap : (mapHas s.events e && achieveMaxListener s e) = true
      · rw [on_cap s e f ctx w c hname hcap] at hok
        have hs : s' = s := by
          injection hok with h1
          injection h1 with h2 _
          exact h2.symm
        rw [hs]; exact hinv
      · have hcap' : (mapHas s.events e && achieveMaxListener s e) = false :=
          by simpa using hcap
        by_cases hex : callbackExists s e f ctx = true
        · rw [on_dup s e f ctx w c hname hcap' hex] at hok
          have hs : s' = s := by
            injection hok with h1
            injection h1 with h2 _
            exact h2.symm
          rw [hs]; exact hinv
        · have hex' : callbackExists s e f ctx = false := by simpa using hex
          rw [on_add s e f ctx w c hname hcap' hex'] at hok
          have hs := (by
            injection hok with h1
            injection h1 with h2 _
            exact h2.symm :
            s' = { (if ctx.isSome then bindFn s f else (f, s)).2 with
                     events := mapSet s.events e
                       (insertByWeight ((mapGet s.events e).getD [])
                         { callback :=
                             (if ctx.isSome then bindFn s f else (f, s)).1,
                           weight := w, count := c, context := ctx }) })
          rw [hs]
          intro p hp
          rcases mem_mapSet _ _ _ p hp with h1 | h1
          · exact hinv p h1
          · rw [h1]
            exact insertByWeight_ne_nil _ _

theorem SortedInv_on (s s' : EmitterState) (e : String) (cb : JSValue)
    (ctx : Option Nat) (w c : Int) (log : List LogEntry) (hinv : SortedInv s)
    (hok : on' s e cb ctx w c = .ok (s', log)) : SortedInv s' := by
  by_cases hn : (jsTrim e == "") = true
  · simp [on', hn] at hok
  · cases cb with
    | other t => simp [on', hn] at hok
    | fn f =>
      have hname : jsTrim e ≠ "" := by simpa using hn
      by_cases hcap : (mapHas s.events e && achieveMaxListener s e) = true
      · rw [on_cap s e f ctx w c hname hcap] at hok
        have hs : s' = s := by
          injection hok with h1
          injection h1 with h2 _
          exact h2.symm
        rw [hs]; exact hinv
      · have hcap' : (mapHas s.events e && achieveMaxListener s e) = false :=
          by simpa using hcap
        by_cases hex : callbackExists s e f ctx = true
        · rw [on_dup s e f ctx w c hname hcap' hex] at hok
          have hs : s' = s := by
            injection hok with h1
            injection h1 with h2 _
            exact h2.symm
          rw [hs]; exact hinv
        · have hex' : callbackExists s e f ctx = false := by simpa using hex
          rw [on_add s e f ctx w c hname hcap' hex'] at hok
          have hs := (by
            injection hok with h1
            injection h1 with h2 _
            exact h2.symm :
            s' = { (if ctx.isSome then bindFn s f else (f, s)).2 with
                     events := mapSet s.events e
                       (insertByWeight ((mapGet s.events e).getD [])
                         { callback :=
                             (if ctx.isSome then bindFn s f else (f, s)).1,
                           weight := w, count := c, context := ctx }) })
          rw [hs]
          intro p hp
          rcases mem_mapSet _ _ _ p hp with h1 | h1
          · exact hinv p h1
          · rw [h1]
            cases hget : mapGet s.events e with
            | none =>
                simp only [hget, Option.getD_none]
                exact weightSorted_insertByWeight [] _ (by
                  simp [weightSorted])
            | some cbs0 =>
                simp only [hget, Option.getD_some]
                exact weightSorted_insertByWeight cbs0 _
                  (SortedInv_get s e cbs0 hinv hget)

theorem NEInv_off (s : EmitterState) (e : String) (callback : Option Fn)
    (ctx : Option Nat) (hinv : NEInv s) : NEInv (off s e callback ctx) := by
  unfold off
  by_cases hh : mapHas s.events e
  · simp only [hh, Bool.not_true, Bool.false_eq_true, if_false]
    cases callback with
    | none =>
        intro p hp
        exact hinv p (mem_mapDelete _ _ _ hp)
    | some f =>
        by_cases hemp : ((((mapGet s.events e).getD []).filter
            (fun cb => !(offMatches s cb f ctx))).isEmpty) = true
        · simp only [hemp, if_true]
          intro p hp
          exact hinv p (mem_mapDelete _ _ _ hp)
        · simp only [hemp, Bool.false_eq_true, if_false]
          intro p hp
          rcases mem_mapSet _ _ _ p hp with h1 | h1
          · exact hinv p h1
          · rw [h1]
            intro hcon
            apply hemp
            rw [List.isEmpty_iff]
            exact hcon
  · simp only [hh]
    intro p hp
    exact hinv p (by simpa using hp)

theorem SortedInv_off (s : EmitterState) (e : String) (callback : Option Fn)
    (ctx : Option Nat) (hinv : SortedInv s) :
    SortedInv (off s e callback ctx) := by
  unfold off
  by_cases hh : mapHas s.events e
  · simp only [hh, Bool.not_true, Bool.false_eq_true, if_false]
    cases callback with
    | none =>
        intro p hp
        exact hinv p (mem_mapDelete _ _ _ hp)
    | some f =>
        by_cases hemp : ((((mapGet s.events e).getD []).filter
            (fun cb => !(offMatches s cb f ctx))).isEmpty) = true
        · simp only [hemp, if_true]
          intro p hp
          exact hinv p (mem_mapDelete _ _ _ hp)
        · simp only [hemp, Bool.false_eq_true, if_false]
          intro p hp
          rcases mem_mapSet _ _ _ p hp with h1 | h1
          · exact hinv p h1
          · rw [h1]
            cases hget : mapGet s.events e with
            | none => simp [hget, weightSorted]
            | some cbs0 =>
                simp only [hget, Option.getD_some]
                exact List.Pairwise.sublist (List.filter_sublist cbs0)
                  (SortedInv_get s e cbs0 hinv hget)
  · simp only [hh]
    intro p hp
    exact hinv p (by simpa using hp)

theorem dispatchKept_sorted (cbs : List CallbackData)
    (h : weightSorted cbs) : weightSorted (dispatchKept cbs) := by
  unfold dispatchKept
  have h1 : weightSorted (cbs.filter (fun cb => !(removesRecord cb))) :=
    List.Pairwise.sublist (List.filter_sublist cbs) h
  unfold weightSorted at h1 ⊢
  rw [List.pairwise_map]
  exact h1.imp (by
    intro a b hab
    rw [stepRecord_weight, stepRecord_weight]
    exact hab)

theorem dispatchKept_ne_nil (cbs : List CallbackData) (hne : cbs ≠ [])
    (hnorem : cbs.any removesRecord = false) : dispatchKept cbs ≠ [] := by
  unfold dispatchKept
  have hall : ∀ cb ∈ cbs, removesRecord cb = false := by
    intro cb hcb
    by_contra hc
    exact absurd (List.any_eq_true.mpr ⟨cb, hcb, by simpa using hc⟩)
      (by simp [hnorem])
  rw [List.filter_eq_self.mpr (fun cb hcb => by simp [hall cb hcb])]
  simpa using hne

theorem NEInv_emit (b : Behavior) (s : EmitterState) (e : String)
    (args : List Arg) (hinv : NEInv s) : NEInv (emit b s e args).1 := by
  rw [emit_state]
  by_cases hh : mapHas s.events e
  · simp only [hh, if_true]
    rcases Option.isSome_iff_exists.mp
        (by rw [← mapHas_eq_isSome, hh] : (mapGet s.events e).isSome) with
      ⟨cbs0, hget⟩
    simp only [hget, Option.getD_some]
    by_cases hcond : (cbs0.any removesRecord &&
        (dispatchKept cbs0).isEmpty) = true
    · simp only [hcond, if_true]
      intro p hp
      exact hinv p (mem_mapDelete _ _ _ hp)
    · simp only [hcond, Bool.false_eq_true, if_false]
      intro p hp
      rcases mem_mapSet _ _ _ p hp with h1 | h1
      · exact hinv p h1
      · rw [h1]
        by_cases hrem : cbs0.any removesRecord = true
        · intro hcon
          rw [Bool.and_eq_true] at hcond
          exact hcond ⟨hrem, by rw [List.isEmpty_iff]; exact hcon⟩
        · exact dispatchKept_ne_nil cbs0
            (NEInv_get s e cbs0 hinv hget) (by simpa using hrem)
  · simp only [hh, Bool.false_eq_true, if_false]
    exact hinv

theorem SortedInv_emit (b : Behavior) (s : EmitterState) (e : String)
    (args : List Arg) (hinv : SortedInv s) :
    SortedInv (emit b s e args).1 := by
  rw [emit_state]
  by_cases hh : mapHas s.events e
  · simp only [hh, if_true]
    rcases Option.isSome_iff_exists.mp
        (by rw [← mapHas_eq_isSome, hh] : (mapGet s.events e).isSome) with
      ⟨cbs0, hget⟩
    simp only [hget, Option.getD_some]
    by_cases hcond : (cbs0.any removesRecord &&
        (dispatchKept cbs0).isEmpty) = true
    · simp only [hcond, if_true]
      intro p hp
      exact hinv p (mem_mapDelete _ _ _ hp)
    · simp only [hcond, Bool.false_eq_true, if_false]
      intro p hp
      rcases mem_mapSet _ _ _ p hp with h1 | h1
      · exact hinv p h1
      · rw [h1]
        exact dispatchKept_sorted cbs0 (SortedInv_get s e cbs0 hinv hget)
  · simp only [hh, Bool.false_eq_true, if_false]
    exact hinv

/-! ## `emitAsync` agrees with `emit` on state and trace -/

theorem emitAsync_eq_emit_state (b : Behavior) (s : EmitterState)
    (e : String) (args : List Arg) :
    (emitAsync b s e args).1 = (emit b s e args).1 := by
  rw [emitAsync_state, emit_state]

theorem emitAsync_eq_emit_trace (b : Behavior) (s : EmitterState)
    (e : String) (args : List Arg) :
    (emitAsync b s e args).2.2 = (emit b s e args).2.2 := by
  rw [emitAsync_trace, emit_trace]

theorem NEInv_emitAsync (b : Behavior) (s : EmitterState) (e : String)
    (args : List Arg) (hinv : NEInv s) : NEInv (emitAsync b s e args).1 := by
  rw [emitAsync_eq_emit_state]
  exact NEInv_emit b s e args hinv

theorem SortedInv_emitAsync (b : Behavior) (s : EmitterState) (e : String)
    (args : List Arg) (hinv : SortedInv s) :
    SortedInv (emitAsync b s e args).1 := by
  rw [emitAsync_eq_emit_state]
  exact SortedInv_emit b s e args hinv

/-! ## Observables of an absent key -/

theorem emit_anyCallbacks (b : Behavior) (s : EmitterState) (e : String)
    (args : List Arg) : (emit b s e args).1.anyCallbacks = s.anyCallbacks := by
  rw [emit_state]

theorem mapHas_iff_mem_keys {α : Type} (m : List (String × α)) (k : String) :
    mapHas m k = true ↔ k ∈ m.map Prod.fst := by
  unfold mapHas
  rw [List.any_eq_true]
  constructor
  · rintro ⟨p, hp, hpk⟩
    exact List.mem_map.mpr ⟨p, hp, by simpa using (beq_iff_eq.mp hpk)⟩
  · rintro h
    rcases List.mem_map.mp h with ⟨p, hp, hpk⟩
    exact ⟨p, hp, by simpa using hpk⟩

theorem listenersNumber_eq_zero_iff (s : EmitterState) (e : String)
    (hinv : NEInv s) : listenersNumber s e = 0 ↔ mapGet s.events e = none := by
  unfold listenersNumber
  cases hget : mapGet s.events e with
  | none => simp
  | some cbs =>
      have hne := NEInv_get s e cbs hinv hget
      simp [List.length_eq_zero, hne]

theorem listeners_eq_nil_iff (s : EmitterState) (e : String)
    (hinv : NEInv s) : listeners s e = [] ↔ mapGet s.events e = none := by
  unfold listeners
  cases hget : mapGet s.events e with
  | none => simp
  | some cbs =>
      have hne := NEInv_get s e cbs hinv hget
      simp [hne]

theorem mem_eventNames_iff (s : EmitterState) (e : String) :
    e ∈ eventNames s ↔ mapGet s.events e ≠ none := by
  unfold eventNames
  rw [← mapHas_iff_mem_keys, mapHas_eq_isSome, Option.isSome_iff_ne_none]

/-! ## Characterisation of `off` with a callback -/

theorem offMatches_eq_of_fresh (s : EmitterState) (cb : CallbackData)
    (f : Fn) (ctx : Option Nat) (hfresh : cb.callback.id ≠ s.nextId) :
    offMatches s cb f ctx = (cb.callback.id == f.id) := by
  unfold offMatches
  have h1 : (cb.callback.id == s.nextId) = false := by simpa using hfresh
  rw [h1]
  by_cases h2 : (cb.callback.id == f.id) = true
  · simp [h2]
  · simp [h2]

theorem off_some_eq (s : EmitterState) (e : String) (f : Fn)
    (ctx : Option Nat) (cbs : List CallbackData)
    (hget : mapGet s.events e = some cbs)
    (hfresh : ∀ cb ∈ cbs, cb.callback.id ≠ s.nextId) :
    off s e (some f) ctx =
      (if (cbs.filter (fun cb => !(cb.callback.id == f.id))).isEmpty then
        { s with events := mapDelete s.events e }
      else
        { s with
            events :=
              mapSet s.events e
                (cbs.filter (fun cb => !(cb.callback.id == f.id))) }) := by
  have hh : mapHas s.events e = true := mapHas_of_get_some s.events e cbs hget
  unfold off
  rw [hh]
  simp only [Bool.not_true, Bool.false_eq_true, if_false, hget,
    Option.getD_some]
  have hfil : cbs.filter (fun cb => !(offMatches s cb f ctx)) =
      cbs.filter (fun cb => !(cb.callback.id == f.id)) :=
    List.filter_congr (fun cb hcb => by
      rw [offMatches_eq_of_fresh s cb f ctx (hfresh cb hcb)])
  rw [hfil]

/-! ## Single-record emission steps -/

theorem removesRecord_many (cd : CallbackData) (hc : cd.count = 0) :
    removesRecord cd = false := by
  unfold removesRecord stepCount
  rw [hc]
  rfl

theorem removesRecord_once (cd : CallbackData) (hc : cd.count = 1) :
    removesRecord cd = true := by
  unfold removesRecord stepCount
  rw [hc]
  rfl

theorem removesRecord_done (cd : CallbackData) (hc : cd.count = 2) :
    removesRecord cd = false := by
  unfold removesRecord
  rw [hc]
  rfl

theorem stepRecord_many (cd : CallbackData) (hc : cd.count = 0) :
    stepRecord cd = cd := by
  unfold stepRecord stepCount
  rw [hc]
  simp only [show ((0 : Int) == 2) = false from rfl, Bool.false_eq_true,
    if_false, show ¬((0 : Int) > 0) from by norm_num, if_neg]
  cases cd with
  | mk cb w c ctx => simp_all

theorem stepRecord_done (cd : CallbackData) (hc : cd.count = 2) :
    stepRecord cd = cd := by
  unfold stepRecord
  rw [hc]
  rfl

theorem emit_step_many (b : Behavior) (s : EmitterState) (e : String)
    (args : List Arg) (cd : CallbackData)
    (hget : mapGet s.events e = some [cd]) (hc : cd.count = 0)
    (hany : s.anyCallbacks = []) :
    (emit b s e args).1.events = mapSet s.events e [cd] ∧
      (emit b s e args).1.anyCallbacks = [] ∧
      (emit b s e args).2.2 = [⟨cd.callback.id, args⟩] := by
  have hh : mapHas s.events e = true := mapHas_of_get_some s.events e _ hget
  have hkept : dispatchKept [cd] = [cd] := by
    unfold dispatchKept
    rw [List.filter_cons]
    simp [removesRecord_many cd hc, stepRecord_many cd hc]
  refine ⟨?_, ?_, ?_⟩
  · rw [emit_state]
    simp only [hh, if_true, hget, Option.getD_some]
    simp [List.any_cons, removesRecord_many cd hc, hkept]
  · rw [emit_anyCallbacks, hany]
  · rw [emit_trace]
    simp only [hh, if_true, hget, Option.getD_some, hany]
    unfold dispatchTrace wildTrace
    simp only [List.filterMap_cons, List.filterMap_nil]
    rw [hc]
    rfl

theorem emit_step_done (b : Behavior) (s : EmitterState) (e : String)
    (args : List Arg) (cd : CallbackData)
    (hget : mapGet s.events e = some [cd]) (hc : cd.count = 2)
    (hany : s.anyCallbacks = []) :
    (emit b s e args).1.events = mapSet s.events e [cd] ∧
      (emit b s e args).1.anyCallbacks = [] ∧
      (emit b s e args).2.2 = [] := by
  have hh : mapHas s.events e = true := mapHas_of_get_some s.events e _ hget
  have hkept : dispatchKept [cd] = [cd] := by
    unfold dispatchKept
    rw [List.filter_cons]
    simp [removesRecord_done cd hc, stepRecord_done cd hc]
  refine ⟨?_, ?_, ?_⟩
  · rw [emit_state]
    simp only [hh, if_true, hget, Option.getD_some]
    simp [List.any_cons, removesRecord_done cd hc, hkept]
  · rw [emit_anyCallbacks, hany]
  · rw [emit_trace]
    simp only [hh, if_true, hget, Option.getD_some, hany]
    unfold dispatchTrace wildTrace
    simp only [List.filterMap_cons, List.filterMap_nil]
    rw [hc]
    rfl

theorem emit_step_once (b : Behavior) (s : EmitterState) (e : String)
    (args : List Arg) (cd : CallbackData)
    (hget : mapGet s.events e = some [cd]) (hc : cd.count = 1)
    (hany : s.anyCallbacks = []) :
    (emit b s e args).1.events = mapDelete s.events e ∧
      (emit b s e args).1.anyCallbacks = [] ∧
      (emit b s e args).2.2 = [⟨cd.callback.id, args⟩] := by
  have hh : mapHas s.events e = true := mapHas_of_get_some s.events e _ hget
  have hkept : dispatchKept [cd] = [] := by
    unfold dispatchKept
    rw [List.filter_cons]
    simp [removesRecord_once cd hc]
  refine ⟨?_, ?_, ?_⟩
  · rw [emit_state]
    simp only [hh, if_true, hget, Option.getD_some]
    simp [List.any_cons, removesRecord_once cd hc, hkept]
  · rw [emit_anyCallbacks, hany]
  · rw [emit_trace]
    simp only [hh, if_true, hget, Option.getD_some, hany]
    unfold dispatchTrace wildTrace
    simp only [List.filterMap_cons, List.filterMap_nil]
    rw [hc]
    rfl

theorem emit_step_absent (b : Behavior) (s : EmitterState) (e : String)
    (args : List Arg) (hget : mapGet s.events e = none)
    (hany : s.anyCallbacks = []) :
    (emit b s e args).1 = s ∧ (emit b s e args).2.2 = [] := by
  have hh : mapHas s.events e = false := by
    rw [mapHas_eq_isSome, hget]
    rfl
  constructor
  · rw [emit_state]
    simp [hh]
  · rw [emit_trace]
    simp [hh, hany, wildTrace]

/-! ## Iterated emission of a single-listener event -/

theorem invCount_nil (i : Nat) : invCount [] i = 0 := rfl

theorem invCount_replicate (n : Nat) (i : Nat) (args : List Arg) :
    invCount (List.replicate n ⟨i, args⟩) i = n := by
  induction n with
  | zero => rfl
  | succ n ih =>
      rw [List.replicate_succ]
      simp only [invCount, List.filter_cons] at ih ⊢
      simp [ih]

theorem iterEmit_zero (b : Behavior) (e : String) (args : List Arg)
    (s : EmitterState) : iterEmit b e args 0 s = (s, []) := rfl

theorem iterEmit_succ (b : Behavior) (e : String) (args : List Arg)
    (n : Nat) (s : EmitterState) :
    iterEmit b e args (n + 1) s =
      ((iterEmit b e args n (emit b s e args).1).1,
       (emit b s e args).2.2 ++ (iterEmit b e args n (emit b s e args).1).2)
    := rfl

theorem iterEmit_many (b : Behavior) (e : String) (args : List Arg)
    (cd : CallbackData) (hc : cd.count = 0) :
    ∀ (n : Nat) (s : EmitterState), mapGet s.events e = some [cd] →
      s.anyCallbacks = [] →
      mapGet (iterEmit b e args n s).1.events e = some [cd] ∧
        (iterEmit b e args n s).1.anyCallbacks = [] ∧
        (iterEmit b e args n s).2 =
          List.replicate n ⟨cd.callback.id, args⟩ := by
  intro n
  induction n with
  | zero =>
      intro s hget hany
      exact ⟨hget, hany, rfl⟩
  | succ n ih =>
      intro s hget hany
      rcases emit_step_many b s e args cd hget hc hany with ⟨h1, h2, h3⟩
      have hget' : mapGet (emit b s e args).1.events e = some [cd] := by
        rw [h1]; exact mapGet_mapSet_self _ _ _
      rcases ih (emit b s e args).1 hget' h2 with ⟨ih1, ih2, ih3⟩
      rw [iterEmit_succ]
      exact ⟨ih1, ih2, by rw [h3, ih3, List.replicate_succ]; rfl⟩

theorem iterEmit_done (b : Behavior) (e : String) (args : List Arg)
    (cd : CallbackData) (hc : cd.count = 2) :
    ∀ (n : Nat) (s : EmitterState), mapGet s.events e = some [cd] →
      s.anyCallbacks = [] →
      mapGet (iterEmit b e args n s).1.events e = some [cd] ∧
        (iterEmit b e args n s).1.anyCallbacks = [] ∧
        (iterEmit b e args n s).2 = [] := by
  intro n
  induction n with
  | zero =>
      intro s hget hany
      exact ⟨hget, hany, rfl⟩
  | succ n ih =>
      intro s hget hany
      rcases emit_step_done b s e args cd hget hc hany with ⟨h1, h2, h3⟩
      have hget' : mapGet (emit b s e args).1.events e = some [cd] := by
        rw [h1]; exact mapGet_mapSet_self _ _ _
      rcases ih (emit b s e args).1 hget' h2 with ⟨ih1, ih2, ih3⟩
      rw [iterEmit_succ]
      exact ⟨ih1, ih2, by rw [h3, ih3]; rfl⟩

theorem iterEmit_absent (b : Behavior) (e : String) (args : List Arg) :
    ∀ (n : Nat) (s : EmitterState), mapGet s.events e = none →
      s.anyCallbacks = [] →
      (iterEmit b e args n s).1 = s ∧ (iterEmit b e args n s).2 = [] := by
  intro n
  induction n with
  | zero =>
      intro s hget hany
      exact ⟨rfl, rfl⟩
  | succ n ih =>
      intro s hget hany
      rcases emit_step_absent b s e args hget hany with ⟨h1, h3⟩
      rcases ih (emit b s e args).1 (by rw [h1]; exact hget)
          (by rw [h1]; exact hany) with ⟨ih1, ih3⟩
      rw [iterEmit_succ]
      refine ⟨by rw [ih1, h1], by rw [h3, ih3]; rfl⟩

theorem iterEmit_once (b : Behavior) (e : String) (args : List Arg)
    (cd : CallbackData) (hc : cd.count = 1) (n : Nat) (s : EmitterState)
    (hget : mapGet s.events e = some [cd]) (hany : s.anyCallbacks = []) :
    mapGet (iterEmit b e args (n + 1) s).1.events e = none ∧
      (iterEmit b e args (n + 1) s).2 = [⟨cd.callback.id, args⟩] := by
  rcases emit_step_once b s e args cd hget hc hany with ⟨h1, h2, h3⟩
  have hget' : mapGet (emit b s e args).1.events e = none := by
    rw [h1]; exact mapGet_mapDelete_self _ _
  rcases iterEmit_absent b e args n (emit b s e args).1 hget' h2 with
    ⟨ih1, ih3⟩
  rw [iterEmit_succ]
  refine ⟨by rw [ih1]; exact hget', by rw [h3, ih3]; rfl⟩

/-! ## Concrete fixtures -/

/-- A plain user function with identity 0. -/
def fnA : Fn := ⟨0, 0, false⟩
/-- A plain user function with identity 1. -/
def fnB : Fn := ⟨1, 1, false⟩
/-- A plain user function with identity 2. -/
def fnC : Fn := ⟨2, 2, false⟩
/-- A behaviour under which no handler ever throws. -/
def noThrow : Behavior := fun _ _ => false
/-- A behaviour under which exactly the function with identity 1 throws. -/
def throwB : Behavior := fun i _ => i == 1
/-- A behaviour under which every handler throws. -/
def throwAll : Behavior := fun _ _ => true

/-! ## Claim C1 -/

/-- The state after registering `fnA` on `"e"` with repeat count 0
(`MANY`). -/
def c1ManyState : EmitterState :=
  ⟨[("e", [⟨fnA, 1, 0, none⟩])], [], none, 100⟩
/-- The state after registering `fnA` on `"e"` with repeat count 1
(`ONCE`). -/
def c1OnceState : EmitterState :=
  ⟨[("e", [⟨fnA, 1, 1, none⟩])], [], none, 100⟩
/-- The state after registering `fnA` on `"e"` with repeat count 2. -/
def c1DoneState : EmitterState :=
  ⟨[("e", [⟨fnA, 1, 2, none⟩])], [], none, 100⟩

/-- C1, counterexample to the claim as stated: a listener registered with
repeat count 2 does not fire on the next two emissions of its event — the
count 2 coincides with the `DONE` sentinel, so the listener is skipped on
dispatch and is never invoked at all (0 invocations after two emissions,
not 2). -/
theorem C1_counterexample :
    on' (mkEmitter none 100) "e" (.fn fnA) none 1 2 =
      .ok (c1DoneState, []) ∧
    invCount (iterEmit noThrow "e" [] 2 c1DoneState).2 fnA.id = 0 ∧
    ¬(invCount (iterEmit noThrow "e" [] 2 c1DoneState).2 fnA.id = 2) :=
  ⟨rfl, rfl, by decide⟩

/-- C1 (amended): for a listener registered alone on a fresh event with
repeat count `repeat`: with `repeat = 0` (unlimited) it fires on every one
of `n` subsequent emissions and stays registered; with `repeat = 1` (once)
it fires exactly once and is then absent from `listenersNumber`; with
`repeat = 2` — which the source uses as the `DONE` sentinel — it never
fires and remains registered.  (The original claim's "fires on exactly the
next two emissions" is false; see the counterexample.) -/
theorem C1_repeat_semantics (b : Behavior) (s0 : EmitterState) (e : String)
    (f : Fn) (w : Int) (args : List Arg)
    (hnot : mapHas s0.events e = false) (hname : jsTrim e ≠ "")
    (hany : s0.anyCallbacks = []) :
    (∀ s1 log, on' s0 e (.fn f) none w 0 = .ok (s1, log) → ∀ n : Nat,
        invCount (iterEmit b e args n s1).2 f.id = n ∧
        listenersNumber (iterEmit b e args n s1).1 e = 1) ∧
    (∀ s1 log, on' s0 e (.fn f) none w 1 = .ok (s1, log) → ∀ n : Nat,
        invCount (iterEmit b e args n s1).2 f.id =
          (if n = 0 then 0 else 1) ∧
        listenersNumber (iterEmit b e args n s1).1 e =
          (if n = 0 then 1 else 0)) ∧
    (∀ s1 log, on' s0 e (.fn f) none w 2 = .ok (s1, log) → ∀ n : Nat,
        invCount (iterEmit b e args n s1).2 f.id = 0 ∧
        listenersNumber (iterEmit b e args n s1).1 e = 1) := by
  refine ⟨?_, ?_, ?_⟩
  · intro s1 log hok n
    rw [on_fresh s0 e f w 0 hnot hname] at hok
    injection hok with h1
    injection h1 with hs hlog
    subst hs
    have hget1 :
        mapGet
          ({ s0 with
               events :=
                 mapSet s0.events e
                   [{ callback := f, weight := w, count := 0,
                       context := none }] }).events e =
          some [{ callback := f, weight := w, count := 0,
                   context := none }] :=
      mapGet_mapSet_self _ _ _
    rcases iterEmit_many b e args
        { callback := f, weight := w, count := 0, context := none } rfl n _
        hget1 hany with ⟨hg, ha, ht⟩
    constructor
    · rw [ht]
      exact invCount_replicate n f.id args
    · unfold listenersNumber
      rw [hg]
      rfl
  · intro s1 log hok n
    rw [on_fresh s0 e f w 1 hnot hname] at hok
    injection hok with h1
    injection h1 with hs hlog
    subst hs
    have hget1 :
        mapGet
          ({ s0 with
               events :=
                 mapSet s0.events e
                   [{ callback := f, weight := w, count := 1,
                       context := none }] }).events e =
          some [{ callback := f, weight := w, count := 1,
                   context := none }] :=
      mapGet_mapSet_self _ _ _
    cases n with
    | zero =>
        rw [iterEmit_zero]
        constructor
        · rfl
        · unfold listenersNumber
          rw [hget1]
          rfl
    | succ m =>
        rcases iterEmit_once b e args
            { callback := f, weight := w, count := 1, context := none } rfl
            m _ hget1 hany with ⟨hg, ht⟩
        constructor
        · rw [ht]
          simp [invCount]
        · unfold listenersNumber
          rw [hg]
          simp
  · intro s1 log hok n
    rw [on_fresh s0 e f w 2 hnot hname] at hok
    injection hok with h1
    injection h1 with hs hlog
    subst hs
    have hget1 :
        mapGet
          ({ s0 with
               events :=
                 mapSet s0.events e
                   [{ callback := f, weight := w, count := 2,
                       context := none }] }).events e =
          some [{ callback := f, weight := w, count := 2,
                   context := none }] :=
      mapGet_mapSet_self _ _ _
    rcases iterEmit_done b e args
        { callback := f, weight := w, count := 2, context := none } rfl n _
        hget1 hany with ⟨hg, ha, ht⟩
    constructor
    · rw [ht]
      rfl
    · unfold listenersNumber
      rw [hg]
      rfl

/-- C1, witness: the amended theorem applied to concrete registrations of
`fnA` with repeat counts 0, 1 and 2, followed by three emissions. -/
theorem C1_repeat_semantics_witness :
    invCount (iterEmit noThrow "e" [] 3 c1ManyState).2 fnA.id = 3 ∧
    invCount (iterEmit noThrow "e" [] 3 c1OnceState).2 fnA.id = 1 ∧
    listenersNumber (iterEmit noThrow "e" [] 3 c1OnceState).1 "e" = 0 ∧
    invCount (iterEmit noThrow "e" [] 3 c1DoneState).2 fnA.id = 0 := by
  have h := C1_repeat_semantics noThrow (mkEmitter none 100) "e" fnA 1 []
    (by decide) (by decide) rfl
  refine ⟨?_, ?_, ?_, ?_⟩
  · exact (h.1 c1ManyState [] (by decide) 3).1
  · have h2 := (h.2.1 c1OnceState [] (by decide) 3).1
    simpa using h2
  · have h2 := (h.2.1 c1OnceState [] (by decide) 3).2
    simpa using h2
  · exact (h.2.2 c1DoneState [] (by decide) 3).1

/-! ## Claim C10 -/

/-- C10: `on` (register) and `once` (registerOnce) reject every event name
consisting entirely of whitespace characters — not only the empty string —
with a `TypeError` (`InvalidArgument`), aborting before any state change
(the error return carries no successor state, so the registry is
untouched). -/
theorem C10_whitespace_event_name (s : EmitterState) (e : String)
    (cb : JSValue) (ctx : Option Nat) (w c : Int)
    (h : ∀ ch ∈ e.toList, isJsWhitespace ch = true) :
    on' s e cb ctx w c = .error .invalidEventName ∧
      once s e cb ctx w = .error .invalidEventName := by
  have ht : jsTrim e = "" := jsTrim_eq_empty e h
  constructor
  · unfold on'
    rw [ht]
    rfl
  · unfold once on'
    rw [ht]
    rfl

/-- C10, witness: the single-space and single-tab event names are rejected
by `on` and `once`. -/
theorem C10_whitespace_event_name_witness :
    on' (mkEmitter none 0) " " (.fn fnA) none 1 0 =
      .error .invalidEventName ∧
    once (mkEmitter none 0) "\t" (.fn fnA) none 1 =
      .error .invalidEventName := by
  refine ⟨?_, ?_⟩
  · exact (C10_whitespace_event_name (mkEmitter none 0) " " (.fn fnA)
      none 1 0 (by decide)).1
  · exact (C10_whitespace_event_name (mkEmitter none 0) "\t" (.fn fnA)
      none 1 1 (by decide)).2

/-! ## Claim C7 -/

/-- C7: with a configured positive `maxListeners` cap, a registration on an
event whose listener count has reached the cap logs a capacity warning and
returns the state unchanged, raising nothing. -/
theorem C7_max_listeners_cap (s : EmitterState) (e : String) (f : Fn)
    (ctx : Option Nat) (w c : Int) (m : Int) (hname : jsTrim e ≠ "")
    (hmax : s.maxListeners = some m) (hm : 1 ≤ m)
    (hcount : m ≤ (listenersNumber s e : Int)) :
    on' s e (.fn f) ctx w c = .ok (s, [.warnMaxListeners m e]) := by
  have hpos : 0 < listenersNumber s e := by
    have h1 : (1 : Int) ≤ (listenersNumber s e : Int) := le_trans hm hcount
    exact_mod_cast h1
  have hh : mapHas s.events e = true := by
    unfold listenersNumber at hpos
    cases hget : mapGet s.events e with
    | none => rw [hget] at hpos; exact absurd hpos (by simp)
    | some cbs => exact mapHas_of_get_some s.events e cbs hget
  have hach : achieveMaxListener s e = true := by
    unfold achieveMaxListener
    rw [hmax]
    simpa using hcount
  have := on_cap s e f ctx w c hname (by rw [hh, hach]; rfl)
  rw [this, hmax]
  rfl

/-- A table with two listeners on event `"c"` under a cap of 2. -/
def capState : EmitterState :=
  ⟨[("c", [⟨fnA, 1, 0, none⟩, ⟨fnB, 1, 0, none⟩])], [], some 2, 100⟩

/-- C7, witness: with `maxListeners = 2` and two listeners on `"c"`, a
third registration is rejected with a capacity warning and the count stays
at 2. -/
theorem C7_max_listeners_cap_witness :
    on' capState "c" (.fn fnC) none 1 0 =
      .ok (capState, [.warnMaxListeners 2 "c"]) ∧
    listenersNumber capState "c" = 2 := by
  refine ⟨?_, by decide⟩
  exact C7_max_listeners_cap capState "c" fnC none 1 0 2 (by decide) rfl
    (by decide) (by decide)

/-! ## Claim C8 -/

/-- C8: for every registry state, event and argument list, `emitAsync`
selects the same listeners in the same order (identical invocation trace)
and applies the same exhaustion and removal updates (identical
post-dispatch state) as the synchronous `emit`; in the sequential model the
two dispatch paths differ only in the text of the error messages they
log. -/
theorem C8_emitAsync_refines_emit (b : Behavior) (s : EmitterState)
    (e : String) (args : List Arg) :
    (emitAsync b s e args).1 = (emit b s e args).1 ∧
      (emitAsync b s e args).2.2 = (emit b s e args).2.2 :=
  ⟨emitAsync_eq_emit_state b s e args, emitAsync_eq_emit_trace b s e args⟩

/-! ## Claim C6 -/

/-- An emitter with one wildcard listener and no regular listeners. -/
def wildOnlyState : EmitterState := ⟨[], [.fn fnA], none, 100⟩

/-- C6, counterexample to the claim as stated: a wildcard handler that
throws during `emit "zq"` is reported with the source's
`Error in onAny listener:` message, which does not carry the offending
event name (`logEventOf` is `none`, not `some "zq"`), contradicting
"reported to the diagnostic sink with the offending event name" for
wildcard handlers. -/
theorem C6_counterexample :
    (emit throwAll wildOnlyState "zq" []).2.1 = [.errorOnAny] ∧
      logEventOf .errorOnAny = none := ⟨rfl, rfl⟩

/-- C6 (amended): exceptions thrown by regular or wildcard handlers during
`emit`/`emitAsync` are contained per handler: the resulting registry state
and the invocation trace are the same whatever the handlers throw (so a
throwing listener never prevents the remaining listeners from running, and
nothing propagates to the caller), and every log entry an emission produces
is either a regular-handler error tagged with the emitted event's name or a
wildcard-handler error, which carries no event name. -/
theorem C6_handler_error_isolation (b b' : Behavior) (s : EmitterState)
    (e : String) (args : List Arg) :
    (emit b s e args).1 = (emit b' s e args).1 ∧
    (emit b s e args).2.2 = (emit b' s e args).2.2 ∧
    (∀ l ∈ (emit b s e args).2.1,
      l = .errorCallback e ∨ l = .errorOnAny) ∧
    (emitAsync b s e args).1 = (emitAsync b' s e args).1 ∧
    (emitAsync b s e args).2.2 = (emitAsync b' s e args).2.2 ∧
    (∀ l ∈ (emitAsync b s e args).2.1,
      l = .errorAsyncCallback e ∨ l = .errorAsyncOnAny) := by
  refine ⟨?_, ?_, ?_, ?_, ?_, ?_⟩
  · rw [emit_state, emit_state]
  · rw [emit_trace, emit_trace]
  · exact fun l hl => emit_log_mem b s e args l hl
  · rw [emitAsync_state, emitAsync_state]
  · rw [emitAsync_trace, emitAsync_trace]
  · exact fun l hl => emitAsync_log_mem b s e args l hl

/-- A table with a throwing high-weight listener (`fnB`, weight 10) above a
low-weight listener (`fnA`, weight 1) on event `"t"`. -/
def twoListenerState : EmitterState :=
  ⟨[("t", [⟨fnB, 10, 0, none⟩, ⟨fnA, 1, 0, none⟩])], [], none, 100⟩

/-- C6, witness: with listener `fnB` throwing, the post state and the
invocation trace equal those of a run where nothing throws (so `fnA` still
runs after `fnB` throws), and the logged entry is the regular-handler error
tagged with `"t"`. -/
theorem C6_handler_error_isolation_witness :
    (emit throwB twoListenerState "t" []).1 =
      (emit noThrow twoListenerState "t" []).1 ∧
    (emit throwB twoListenerState "t" []).2.2 =
      (emit noThrow twoListenerState "t" []).2.2 ∧
    (LogEntry.errorCallback "t" = .errorCallback "t" ∨
      LogEntry.errorCallback "t" = .errorOnAny) := by
  have h := C6_handler_error_isolation throwB noThrow twoListenerState
    "t" []
  exact ⟨h.1, h.2.1, h.2.2.1 (.errorCallback "t") (by decide)⟩

/-! ## Claim C2 -/

/-- The state after registering `fnA` with receiver context `7` on a fresh
emitter: the stored callback is the bound wrapper (fresh identity 100,
native-code `toString`). -/
def ctxRegState : EmitterState :=
  ⟨[("x", [⟨⟨100, 0, true⟩, 1, 0, some 7⟩])], [], none, 101⟩

/-- The state `ctxRegState` plus a second, identical `(fnA, 7)`
registration, which the duplicate check fails to detect. -/
def ctxRegStateTwice : EmitterState :=
  ⟨[("x", [⟨⟨100, 0, true⟩, 1, 0, some 7⟩, ⟨⟨101, 0, true⟩, 1, 0, some 7⟩])],
   [], none, 102⟩

/-- C2, counterexample to the claim as stated: registering the identical
`(originalHandler, receiverContext)` pair `(fnA, 7)` twice does not warn
and is not a no-op — the second call adds a second record (no
`warnDuplicate` entry, `listenersNumber` becomes 2, not 1), because the
stored callback is the bound wrapper, whose identity and `toString`
rendering differ from the original handler's. -/
theorem C2_counterexample :
    on' (mkEmitter none 100) "x" (.fn fnA) (some 7) 1 0 =
      .ok (ctxRegState, []) ∧
    on' ctxRegState "x" (.fn fnA) (some 7) 1 0 =
      .ok (ctxRegStateTwice, []) ∧
    listenersNumber ctxRegStateTwice "x" = 2 := ⟨rfl, rfl, rfl⟩

/-- C2 (amended): a registration whose callback is reference-identical to
the stored callback of a record already registered for the event (as
happens when the same handler is registered twice with no context) emits a
duplicate warning and is a no-op, so `register("x", f)` twice with the same
`f` and no context leaves `listenerCount("x")` at 1; a pair registered with
a receiver context is in general not detected as a duplicate, because the
stored callback is the bound wrapper (see the counterexample). -/
theorem C2_duplicate_suppression (s : EmitterState) (e : String) (f : Fn)
    (ctx : Option Nat) (w c : Int) (cbs : List CallbackData)
    (hname : jsTrim e ≠ "")
    (hcap : (mapHas s.events e && achieveMaxListener s e) = false)
    (hget : mapGet s.events e = some cbs)
    (hdup : ∃ cb ∈ cbs, cb.callback.id = f.id) :
    on' s e (.fn f) ctx w c = .ok (s, [.warnDuplicate e]) := by
  have hex : callbackExists s e f ctx = true := by
    unfold callbackExists
    rw [hget]
    rcases hdup with ⟨cb, hmem, hid⟩
    exact List.any_eq_true.mpr ⟨cb, hmem, by simp [hid]⟩
  exact on_dup s e f ctx w c hname hcap hex

/-- The state after registering `fnA` on `"x"` with no context. -/
def noCtxRegState : EmitterState :=
  ⟨[("x", [⟨fnA, 1, 0, none⟩])], [], none, 100⟩

/-- C2, witness: re-registering `fnA` on `"x"` with no context warns and
leaves the single record in place, so `listenerCount("x")` stays 1. -/
theorem C2_duplicate_suppression_witness :
    on' noCtxRegState "x" (.fn fnA) none 1 0 =
      .ok (noCtxRegState, [.warnDuplicate "x"]) ∧
    listenersNumber noCtxRegState "x" = 1 := by
  refine ⟨?_, rfl⟩
  exact C2_duplicate_suppression noCtxRegState "x" fnA none 1 0
    [⟨fnA, 1, 0, none⟩] (by decide) rfl rfl
    ⟨⟨fnA, 1, 0, none⟩, by decide, rfl⟩

/-! ## Claim C3 -/

/-- C3, counterexample to the claim as stated: `unregister` does not remove
a record whose `(originalHandler, receiverContext)` pair matches when the
record was registered with a receiver context — `off("x", fnA, 7)` after
`on("x", fnA, 7)` leaves the count at 1, because the stored callback is the
bound wrapper; and the context need not match exactly — `off("x", fnA, 9)`
removes the record registered with `fnA` and no context even though the
contexts differ. -/
theorem C3_counterexample :
    listenersNumber (off ctxRegState "x" (some fnA) (some 7)) "x" = 1 ∧
    listenersNumber (off noCtxRegState "x" (some fnA) (some 9)) "x" = 0 :=
  ⟨rfl, rfl⟩

/-- C3 (amended): when the event exists, `off` with a callback removes
exactly the records whose stored callback is reference-identical to the
given callback, whatever context argument is passed (records registered
with a receiver context store the bound wrapper and are therefore not
matched by the original handler); the key is deleted if the filtered list
becomes empty; when nothing matches (and in particular when the event has
no entry at all) the call is a no-op and raises nothing. -/
theorem C3_off_semantics (s : EmitterState) (e : String) (f : Fn)
    (ctx : Option Nat) :
    (∀ cbs, mapGet s.events e = some cbs →
      (∀ cb ∈ cbs, cb.callback.id ≠ s.nextId) →
      (off s e (some f) ctx =
        (if (cbs.filter (fun cb => !(cb.callback.id == f.id))).isEmpty then
          { s with events := mapDelete s.events e }
        else
          { s with
              events :=
                mapSet s.events e
                  (cbs.filter
                    (fun cb => !(cb.callback.id == f.id))) })) ∧
      (cbs ≠ [] → (∀ cb ∈ cbs, cb.callback.id ≠ f.id) →
        off s e (some f) ctx = s)) ∧
    (mapHas s.events e = false →
      ∀ callback, off s e callback ctx = s) := by
  constructor
  · intro cbs hget hfresh
    have hchar := off_some_eq s e f ctx cbs hget hfresh
    refine ⟨hchar, ?_⟩
    intro hne hnomatch
    have hfil : cbs.filter (fun cb => !(cb.callback.id == f.id)) = cbs :=
      List.filter_eq_self.mpr (fun cb hcb => by
        simpa using hnomatch cb hcb)
    rw [hchar, hfil]
    have hemp : cbs.isEmpty = false := by
      cases cbs with
      | nil => exact absurd rfl hne
      | cons a l => rfl
    rw [hemp]
    simp only [Bool.false_eq_true, if_false]
    rw [mapSet_self s.events e cbs hget]
  · intro hhas callback
    unfold off
    rw [hhas]
    rfl

/-- C3, witness: the amended theorem applied to the context-bound
registration (`off` with the original handler does not remove it, a no-op)
and confirming the unknown-event no-op. -/
theorem C3_off_semantics_witness :
    off ctxRegState "x" (some fnA) (some 7) = ctxRegState ∧
    off (mkEmitter none 0) "nope" (some fnA) none = mkEmitter none 0 := by
  have h := C3_off_semantics ctxRegState "x" fnA (some 7)
  have h2 := C3_off_semantics (mkEmitter none 0) "nope" fnA none
  refine ⟨?_, ?_⟩
  · exact (h.1 [⟨⟨100, 0, true⟩, 1, 0, some 7⟩] rfl (by decide)).2
      (by decide) (by decide)
  · exact h2.2 rfl (some fnA)

/-! ## Claim C4 -/

/-- C4, counterexample to the claim as stated: `onAny` neither validates
callability nor deduplicates — adding the identical callable twice yields
two wildcard entries and two invocations per emission (not a warning and a
no-op), and a non-callable argument is accepted without any error being
raised. -/
theorem C4_counterexample :
    (onAny (onAny (mkEmitter none 100) (.fn fnA)) (.fn fnA)).anyCallbacks =
      [.fn fnA, .fn fnA] ∧
    invCount (emit noThrow
        (onAny (onAny (mkEmitter none 100) (.fn fnA)) (.fn fnA))
        "zz" []).2.2 fnA.id = 2 ∧
    (onAny (mkEmitter none 100) (.other 3)).anyCallbacks = [.other 3] :=
  ⟨rfl, rfl, rfl⟩

theorem invCount_append (a c : List Invocation) (i : Nat) :
    invCount (a ++ c) i = invCount a i + invCount c i := by
  simp [invCount, List.filter_append]

/-- C4 (amended): `onAny` appends its argument to the wildcard list
unconditionally.  Adding the same callable twice makes every emission
invoke it two more times than before (duplicates accumulate, no set
semantics, no warning); a non-callable value is accepted without raising —
the `TypeError` it causes surfaces only as a contained per-handler
dispatch error (`Error in onAny listener:`). -/
theorem C4_onAny_no_validation (s : EmitterState) (e : String)
    (args : List Arg) (b : Behavior) (g : Fn) (t : Nat)
    (hhas : mapHas s.events e = false) :
    invCount (emit b (onAny (onAny s (.fn g)) (.fn g)) e args).2.2 g.id =
      invCount (emit b s e args).2.2 g.id + 2 ∧
    (s.anyCallbacks = [] →
      (emit b (onAny s (.other t)) e args).2.1 = [.errorOnAny]) := by
  constructor
  · have hh' : mapHas (onAny (onAny s (.fn g)) (.fn g)).events e = false :=
      hhas
    rw [emit_trace, emit_trace]
    simp only [hh', hhas, Bool.false_eq_true, if_false, List.nil_append]
    show invCount (wildTrace e args ((s.anyCallbacks ++ [.fn g]) ++ [.fn g]))
        g.id = invCount (wildTrace e args s.anyCallbacks) g.id + 2
    unfold wildTrace
    rw [List.filterMap_append, List.filterMap_append, invCount_append,
      invCount_append]
    simp [invCount]
  · intro hany0
    unfold emit
    simp [onAny, hany0, invokeValue, hhas]

/-- C4, witness: the amended theorem at a fresh emitter — two `onAny`
registrations of `fnA` produce exactly two invocations per emission, and an
emission after registering a non-callable logs the contained wildcard
error. -/
theorem C4_onAny_no_validation_witness :
    invCount (emit noThrow
        (onAny (onAny (mkEmitter none 100) (.fn fnA)) (.fn fnA))
        "zz" []).2.2 fnA.id =
      invCount (emit noThrow (mkEmitter none 100) "zz" []).2.2 fnA.id + 2 ∧
    (emit noThrow (onAny (mkEmitter none 100) (.other 3)) "zz" []).2.1 =
      [.errorOnAny] := by
  have h := C4_onAny_no_validation (mkEmitter none 100) "zz" [] noThrow
    fnA 3 (by decide)
  exact ⟨h.1, h.2 rfl⟩

/-! ## Claim C5 -/

/-- The state after registering `fnA` with weight 1 on `"p"`. -/
def w1State : EmitterState := ⟨[("p", [⟨fnA, 1, 0, none⟩])], [], none, 100⟩
/-- `w1State` plus `fnB` with weight 10. -/
def w110State : EmitterState :=
  ⟨[("p", [⟨fnB, 10, 0, none⟩, ⟨fnA, 1, 0, none⟩])], [], none, 100⟩
/-- `w110State` plus `fnC` with weight 5. -/
def w1105State : EmitterState :=
  ⟨[("p", [⟨fnB, 10, 0, none⟩, ⟨fnC, 5, 0, none⟩, ⟨fnA, 1, 0, none⟩])],
   [], none, 100⟩

/-- C5: every operation preserves the invariant that each event's record
list is in non-increasing weight order; a new record is inserted
immediately before the first record of strictly lower weight (after the
maximal prefix of records whose weight is not strictly lower, hence
equal-weight records keep insertion order, and at the tail when its weight
is lowest); consequently listeners registered with weights `[1, 10, 5]` on
one event are dispatched in the order `10, 5, 1`. -/
theorem C5_weight_ordering (s : EmitterState) (hs : SortedInv s) :
    (∀ e cb ctx w c s' log, on' s e cb ctx w c = .ok (s', log) →
      SortedInv s') ∧
    (∀ e cb ctx w s' log, once s e cb ctx w = .ok (s', log) →
      SortedInv s') ∧
    (∀ e callback ctx, SortedInv (off s e callback ctx)) ∧
    (∀ b e args, SortedInv (emit b s e args).1) ∧
    (∀ b e args, SortedInv (emitAsync b s e args).1) ∧
    SortedInv (clear s) ∧
    (∀ v, SortedInv (onAny s v)) ∧
    (∀ v, SortedInv (offAny s v)) ∧
    (∀ l cd, insertByWeight l cd =
      l.takeWhile (fun c => !(c.weight < cd.weight)) ++
        cd :: l.dropWhile (fun c => !(c.weight < cd.weight))) ∧
    (on' (mkEmitter none 100) "p" (.fn fnA) none 1 0 = .ok (w1State, []) ∧
     on' w1State "p" (.fn fnB) none 10 0 = .ok (w110State, []) ∧
     on' w110State "p" (.fn fnC) none 5 0 = .ok (w1105State, []) ∧
     (emit noThrow w1105State "p" []).2.2 =
       [⟨fnB.id, []⟩, ⟨fnC.id, []⟩, ⟨fnA.id, []⟩]) := by
  refine ⟨?_, ?_, ?_, ?_, ?_, ?_, ?_, ?_, ?_, rfl, rfl, rfl, rfl⟩
  · intro e cb ctx w c s' log hok
    exact SortedInv_on s s' e cb ctx w c log hs hok
  · intro e cb ctx w s' log hok
    exact SortedInv_on s s' e cb ctx w 1 log hs hok
  · intro e callback ctx
    exact SortedInv_off s e callback ctx hs
  · intro b e args
    exact SortedInv_emit b s e args hs
  · intro b e args
    exact SortedInv_emitAsync b s e args hs
  · intro p hp
    simp [clear] at hp
  · intro v p hp
    exact hs p hp
  · intro v p hp
    exact hs p hp
  · intro l cd
    exact insertByWeight_eq_takeWhile l cd

/-- C5, witness: the preservation statement applied to the fresh emitter
(vacuously sorted), and the concrete `[1, 10, 5]` scenario dispatching in
weight order `10, 5, 1`. -/
theorem C5_weight_ordering_witness :
    SortedInv (clear (mkEmitter none 0)) ∧
    (emit noThrow w1105State "p" []).2.2 =
      [⟨fnB.id, []⟩, ⟨fnC.id, []⟩, ⟨fnA.id, []⟩] := by
  have hvac : SortedInv (mkEmitter none 0) := by
    intro p hp
    simp [mkEmitter] at hp
  have h := C5_weight_ordering (mkEmitter none 0) hvac
  have h2 := C5_weight_ordering (mkEmitter none 100) (by
    intro p hp
    simp [mkEmitter] at hp)
  exact ⟨h.2.2.2.2.2.1, h2.2.2.2.2.2.2.2.2.2.2.2.2⟩

/-! ## Claim C9 -/

/-- C9: every mutating operation preserves the invariant that a key present
in the event table maps to a non-empty record list (a removal or exhaustion
that would empty a list deletes the key instead), and under that invariant
the absence of a key is observably equivalent to zero listeners:
`listenersNumber` is 0 exactly for absent keys, `listeners` is empty
exactly for absent keys, and `eventNames` contains exactly the present
keys. -/
theorem C9_table_invariant (s : EmitterState) (hs : NEInv s) :
    (∀ e cb ctx w c s' log, on' s e cb ctx w c = .ok (s', log) →
      NEInv s') ∧
    (∀ e cb ctx w s' log, once s e cb ctx w = .ok (s', log) → NEInv s') ∧
    (∀ e callback ctx, NEInv (off s e callback ctx)) ∧
    (∀ b e args, NEInv (emit b s e args).1) ∧
    (∀ b e args, NEInv (emitAsync b s e args).1) ∧
    NEInv (clear s) ∧
    (∀ v, NEInv (onAny s v)) ∧
    (∀ v, NEInv (offAny s v)) ∧
    (∀ e, (listenersNumber s e = 0 ↔ mapGet s.events e = none) ∧
      (listeners s e = [] ↔ mapGet s.events e = none) ∧
      (e ∈ eventNames s ↔ mapGet s.events e ≠ none)) := by
  refine ⟨?_, ?_, ?_, ?_, ?_, ?_, ?_, ?_, ?_⟩
  · intro e cb ctx w c s' log hok
    exact NEInv_on s s' e cb ctx w c log hs hok
  · intro e cb ctx w s' log hok
    exact NEInv_on s s' e cb ctx w 1 log hs hok
  · intro e callback ctx
    exact NEInv_off s e callback ctx hs
  · intro b e args
    exact NEInv_emit b s e args hs
  · intro b e args
    exact NEInv_emitAsync b s e args hs
  · intro p hp
    simp [clear] at hp
  · intro v p hp
    exact hs p hp
  · intro v p hp
    exact hs p hp
  · intro e
    exact ⟨listenersNumber_eq_zero_iff s e hs, listeners_eq_nil_iff s e hs,
      mem_eventNames_iff s e⟩

/-- C9, witness: the invariant statement applied to a one-listener table —
an emission that exhausts the only `once` record deletes the key, after
which the count is 0, the listener list is empty and the name is gone from
`eventNames`. -/
theorem C9_table_invariant_witness :
    NEInv (emit noThrow c1OnceState "e" []).1 ∧
    listenersNumber (emit noThrow c1OnceState "e" []).1 "e" = 0 ∧
    eventNames (emit noThrow c1OnceState "e" []).1 = [] := by
  have hinv : NEInv c1OnceState := by
    intro p hp
    rcases List.mem_singleton.mp hp with rfl
    simp
  have h := C9_table_invariant c1OnceState hinv
  refine ⟨h.2.2.2.1 noThrow "e" [], by decide, by decide⟩

end EvtEmitter
